import Mathlib

/-!
# Client session and conversation controller

A shallow embedding of `app.js` and `auth.js` (the two scripts under
`src/app/api/static/`): the JSON codec and the JavaScript value semantics the
scripts rely on, `localStorage`, the parts of the two pages the scripts write
to, and the handlers themselves, followed by the properties proved of them.

Conventions of the embedding.

* JavaScript values that reach the scripts come out of `JSON.parse`, so they
  are JSON values (`JVal`); `undefined` is `none` in `Option JVal`.
* A number is an exact decimal (no rounding to a double): an integer, or a
  `Decimal` when it is not one. Every JSON number literal is accepted; numbers
  are written positionally, where an engine switches to exponent notation from
  1e21 and below 1e-6 (both texts read back as the same number).
* A `String` is a sequence of Unicode scalar values, so a lone surrogate
  (which a JavaScript string can hold) is outside the model.
* Objects keep their members in source order, duplicates included; a property
  read takes the last member of that name, as `JSON.parse` does.
* An `async` handler is split at its network call: the part that runs when the
  event fires, and the part that runs when the call settles.
* Every element the scripts look up with `getElementById` is present.
-/

namespace CyberAdvice

/-! ## JSON values and the codec -/

/-- A number that is not an integer, in lowest terms: `mant / 10 ^ (scale + 1)`,
negated when `neg`, with `mant` not a multiple of ten. -/
structure Decimal where
  neg : Bool
  mant : Nat
  scale : Nat
  lastDigit : mant % 10 ≠ 0

/-- A JSON value, as produced by `JSON.parse`: a number is `num` when it is an
integer and `dec` otherwise. -/
inductive JVal where
  | null
  | bool (b : Bool)
  | num (n : Int)
  | dec (d : Decimal)
  | str (s : String)
  | arr (xs : List JVal)
  | obj (kvs : List (String × JVal))

/-- Lower-case hexadecimal digit of a number below sixteen. -/
def hexChar (n : Nat) : Char :=
  if n < 10 then Char.ofNat (48 + n) else Char.ofNat (87 + n)

/-- The text `JSON.stringify` writes for one character of a string. -/
def escapeChar (c : Char) : List Char :=
  if c = '"' then ['\\', '"']
  else if c = '\\' then ['\\', '\\']
  else if c = '\n' then ['\\', 'n']
  else if c = '\r' then ['\\', 'r']
  else if c = '\t' then ['\\', 't']
  else if c.toNat = 8 then ['\\', 'b']
  else if c.toNat = 12 then ['\\', 'f']
  else if c.toNat < 32 then
    ['\\', 'u', '0', '0', hexChar (c.toNat / 16), hexChar (c.toNat % 16)]
  else [c]

/-- Escaped form of a string body. -/
def escapeChars : List Char → List Char
  | [] => []
  | c :: cs => escapeChar c ++ escapeChars cs

/-- A quoted JSON string. -/
def quoteChars (s : List Char) : List Char := '"' :: (escapeChars s ++ ['"'])

/-- Decimal digit character of a number below ten. -/
def digitChar (n : Nat) : Char := Char.ofNat (48 + n)

/-- Decimal digits of `n`, most significant first, prepended to `acc`. -/
def natDigitsAux : Nat → Nat → List Char → List Char
  | 0, _, acc => acc
  | f + 1, n, acc =>
    if n < 10 then digitChar n :: acc
    else natDigitsAux f (n / 10) (digitChar (n % 10) :: acc)

/-- Decimal rendering of a natural number. -/
def natDigits (n : Nat) : List Char := natDigitsAux (n + 1) n []

/-- Decimal rendering of an integer. -/
def intDigits (n : Int) : List Char :=
  if n < 0 then '-' :: natDigits n.natAbs else natDigits n.natAbs

/-- The last `k` decimal digits of `x`, leading zeros included. -/
def fixedDigits : Nat → Nat → List Char
  | 0, _ => []
  | k + 1, x => fixedDigits k (x / 10) ++ [digitChar (x % 10)]

/-- Decimal rendering of a number that is not an integer: sign, integer part,
point, and the `scale + 1` digits of the fraction. -/
def decDigits (d : Decimal) : List Char :=
  (if d.neg then ['-'] else []) ++
    (natDigits (d.mant / 10 ^ (d.scale + 1)) ++
      '.' :: fixedDigits (d.scale + 1) (d.mant % 10 ^ (d.scale + 1)))

mutual
/-- Compact JSON text of a value, as `JSON.stringify(v)` writes it. -/
def stringifyVal : JVal → List Char
  | .null => ['n', 'u', 'l', 'l']
  | .bool true => ['t', 'r', 'u', 'e']
  | .bool false => ['f', 'a', 'l', 's', 'e']
  | .num n => intDigits n
  | .dec d => decDigits d
  | .str s => quoteChars s.data
  | .arr xs => '[' :: stringifyElems xs
  | .obj kvs => '{' :: stringifyMembers kvs
/-- Elements of an array and the closing bracket. -/
def stringifyElems : List JVal → List Char
  | [] => [']']
  | v :: vs =>
    match vs with
    | [] => stringifyVal v ++ [']']
    | _ :: _ => stringifyVal v ++ ',' :: stringifyElems vs
/-- Members of an object and the closing brace. -/
def stringifyMembers : List (String × JVal) → List Char
  | [] => ['}']
  | (k, v) :: kvs =>
    match kvs with
    | [] => quoteChars k.data ++ ':' :: (stringifyVal v ++ ['}'])
    | _ :: _ => quoteChars k.data ++ ':' :: (stringifyVal v ++ ',' :: stringifyMembers kvs)
end

/-- JSON whitespace. -/
def isWs (c : Char) : Bool := c = ' ' || c = '\t' || c = '\n' || c = '\r'

/-- Drop leading JSON whitespace. -/
def skipWs : List Char → List Char
  | [] => []
  | c :: cs => if isWs c then skipWs cs else c :: cs

/-- Decimal digit test. -/
def isDigit (c : Char) : Bool := decide (48 ≤ c.toNat) && decide (c.toNat ≤ 57)

/-- Value of a decimal digit character. -/
def digitVal (c : Char) : Nat := c.toNat - 48

/-- Value of a hexadecimal digit character, either case. -/
def hexVal (c : Char) : Option Nat :=
  if 48 ≤ c.toNat ∧ c.toNat ≤ 57 then some (c.toNat - 48)
  else if 97 ≤ c.toNat ∧ c.toNat ≤ 102 then some (c.toNat - 87)
  else if 65 ≤ c.toNat ∧ c.toNat ≤ 70 then some (c.toNat - 55)
  else none

/-- Four hexadecimal digits of a `\u` escape. -/
def parseHex4 : List Char → Option (Nat × List Char)
  | a :: b :: c :: d :: rest =>
    match hexVal a, hexVal b, hexVal c, hexVal d with
    | some x, some y, some z, some w => some (((x * 16 + y) * 16 + z) * 16 + w, rest)
    | _, _, _, _ => none
  | _ => none

/-- The character a one-letter escape stands for. -/
def unescape (e : Char) : Option Char :=
  if e = '"' then some '"'
  else if e = '\\' then some '\\'
  else if e = '/' then some '/'
  else if e = 'b' then some (Char.ofNat 8)
  else if e = 'f' then some (Char.ofNat 12)
  else if e = 'n' then some '\n'
  else if e = 'r' then some '\r'
  else if e = 't' then some '\t'
  else none

/-- A `\u` escape of a low surrogate, the second half of a pair. -/
def lowSurrogate : List Char → Option (Nat × List Char)
  | c :: e :: rest =>
    if c = '\\' ∧ e = 'u' then
      match parseHex4 rest with
      | some (m, rest1) => if 0xDC00 ≤ m ∧ m < 0xE000 then some (m, rest1) else none
      | none => none
    else none
  | _ => none

/-- Body of a JSON string up to and including the closing quote. A surrogate
pair of escapes is one character; a lone surrogate escape, which a `String`
cannot hold, is read as U+FFFD. -/
def parseStrBody : Nat → List Char → Option (List Char × List Char)
  | 0, _ => none
  | f + 1, cs =>
    match cs with
    | [] => none
    | c :: rest =>
      if c = '"' then some ([], rest)
      else if c = '\\' then
        match rest with
        | [] => none
        | e :: rest1 =>
          if e = 'u' then
            match parseHex4 rest1 with
            | none => none
            | some (n, rest2) =>
              if 0xD800 ≤ n ∧ n < 0xDC00 then
                match lowSurrogate rest2 with
                | some (m, rest3) =>
                  (parseStrBody f rest3).map fun p =>
                    (Char.ofNat (0x10000 + (n - 0xD800) * 0x400 + (m - 0xDC00)) :: p.1, p.2)
                | none => (parseStrBody f rest2).map fun p => (Char.ofNat 0xFFFD :: p.1, p.2)
              else if 0xDC00 ≤ n ∧ n < 0xE000 then
                (parseStrBody f rest2).map fun p => (Char.ofNat 0xFFFD :: p.1, p.2)
              else (parseStrBody f rest2).map fun p => (Char.ofNat n :: p.1, p.2)
          else
            match unescape e with
            | none => none
            | some ch => (parseStrBody f rest1).map fun p => (ch :: p.1, p.2)
      else if c.toNat < 32 then none
      else (parseStrBody f rest).map fun p => (c :: p.1, p.2)

/-- A JSON string after its opening quote; the fuel is enough for every input
(`parseStrBody_fuel`). -/
def parseString (cs : List Char) : Option (String × List Char) :=
  (parseStrBody (cs.length + 1) cs).map fun p => (String.mk p.1, p.2)

/-- Further digits of a number. -/
def parseDigits (acc : Nat) : List Char → Nat × List Char
  | [] => (acc, [])
  | c :: cs => if isDigit c then parseDigits (acc * 10 + digitVal c) cs else (acc, c :: cs)

/-- Integer part of a JSON number: `0`, or a non-zero digit and further digits. -/
def parseNat : List Char → Option (Nat × List Char)
  | [] => none
  | c :: cs =>
    if c = '0' then some (0, cs)
    else if isDigit c then some (parseDigits (digitVal c) cs)
    else none

/-- Digits of a fraction: their value and how many there are. -/
def parseFracDigits (acc count : Nat) : List Char → Nat × Nat × List Char
  | [] => (acc, count, [])
  | c :: cs =>
    if isDigit c then parseFracDigits (acc * 10 + digitVal c) (count + 1) cs
    else (acc, count, c :: cs)

/-- Optional fraction part of a JSON number: a point and one or more digits.
Yields the value of the digits and their count (both zero when there is no
fraction part). -/
def parseFraction (cs : List Char) : Option (Nat × Nat × List Char) :=
  match cs with
  | [] => some (0, 0, [])
  | c :: t =>
    if c = '.' then
      match t with
      | [] => none
      | d :: _ => if isDigit d then some (parseFracDigits 0 0 t) else none
    else some (0, 0, c :: t)

/-- One or more digits. -/
def parseDigits1 (cs : List Char) : Option (Nat × List Char) :=
  match cs with
  | [] => none
  | c :: t => if isDigit c then some (parseDigits (digitVal c) t) else none

/-- Optional exponent part of a JSON number: `e` or `E`, an optional sign and
one or more digits. Yields the exponent (zero when there is no exponent part). -/
def parseExponent (cs : List Char) : Option (Int × List Char) :=
  match cs with
  | [] => some (0, [])
  | c :: t =>
    if c = 'e' ∨ c = 'E' then
      match t with
      | [] => none
      | s :: t1 =>
        if s = '-' then (parseDigits1 t1).map fun p => (-(p.1 : Int), p.2)
        else if s = '+' then (parseDigits1 t1).map fun p => ((p.1 : Int), p.2)
        else (parseDigits1 (s :: t1)).map fun p => ((p.1 : Int), p.2)
    else some (0, c :: t)

/-- Drop up to `k` trailing zeros of `m`; yields what is left of `m` and of `k`. -/
def stripZeros : Nat → Nat → Nat × Nat
  | 0, m => (m, 0)
  | k + 1, m => if m % 10 = 0 then stripZeros k (m / 10) else (m, k + 1)

/-- An integer with a sign. -/
def signed (neg : Bool) (m : Nat) : Int := if neg then -(m : Int) else (m : Int)

/-- The value `m * 10 ^ e`, negated when `neg`, as a JSON value. -/
def mkNumber (neg : Bool) (m : Nat) (e : Int) : JVal :=
  if m = 0 then .num 0
  else if 0 ≤ e then .num (signed neg (m * 10 ^ e.toNat))
  else
    if h : (stripZeros (-e).toNat m).1 % 10 ≠ 0 ∧ (stripZeros (-e).toNat m).2 ≠ 0 then
      .dec ⟨neg, (stripZeros (-e).toNat m).1, (stripZeros (-e).toNat m).2 - 1, h.1⟩
    else .num (signed neg (stripZeros (-e).toNat m).1)

/-- A JSON number: optional minus, integer part, optional fraction, optional
exponent. -/
def parseNumber (cs : List Char) : Option (JVal × List Char) :=
  match cs with
  | [] => none
  | c :: cs1 =>
    match parseNat (if c = '-' then cs1 else c :: cs1) with
    | none => none
    | some (n, r1) =>
      match parseFraction r1 with
      | none => none
      | some (f, k, r2) =>
        match parseExponent r2 with
        | none => none
        | some (e, r3) => some (mkNumber (decide (c = '-')) (n * 10 ^ k + f) (e - k), r3)

/-- The rest of the input after the literal `lit`. -/
def expect (lit : List Char) (cs : List Char) : Option (List Char) :=
  if lit.isPrefixOf cs then some (cs.drop lit.length) else none

mutual
/-- One JSON value and the input left after it. -/
def parseValue : Nat → List Char → Option (JVal × List Char)
  | 0, _ => none
  | f + 1, cs =>
    match skipWs cs with
    | [] => none
    | c :: rest =>
      if c = '[' then
        match skipWs rest with
        | [] => none
        | d :: rest1 =>
          if d = ']' then some (.arr [], rest1)
          else (parseElems f (d :: rest1)).map fun p => (.arr p.1, p.2)
      else if c = '{' then
        match skipWs rest with
        | [] => none
        | d :: rest1 =>
          if d = '}' then some (.obj [], rest1)
          else (parseMembers f (d :: rest1)).map fun p => (.obj p.1, p.2)
      else if c = '"' then
        (parseString rest).map fun p => (.str p.1, p.2)
      else if c = 'n' then (expect ['u', 'l', 'l'] rest).map fun r => (.null, r)
      else if c = 't' then (expect ['r', 'u', 'e'] rest).map fun r => (.bool true, r)
      else if c = 'f' then (expect ['a', 'l', 's', 'e'] rest).map fun r => (.bool false, r)
      else parseNumber (c :: rest)
/-- The elements of a non-empty array and its closing bracket. -/
def parseElems : Nat → List Char → Option (List JVal × List Char)
  | 0, _ => none
  | f + 1, cs =>
    match parseValue f cs with
    | none => none
    | some (v, r) =>
      match skipWs r with
      | [] => none
      | c :: r1 =>
        if c = ',' then (parseElems f r1).map fun p => (v :: p.1, p.2)
        else if c = ']' then some ([v], r1)
        else none
/-- The members of a non-empty object and its closing brace. -/
def parseMembers : Nat → List Char → Option (List (String × JVal) × List Char)
  | 0, _ => none
  | f + 1, cs =>
    match skipWs cs with
    | [] => none
    | q :: r0 =>
      if q = '"' then
        match parseString r0 with
        | none => none
        | some (k, r1) =>
          match skipWs r1 with
          | [] => none
          | c :: r2 =>
            if c = ':' then
              match parseValue f r2 with
              | none => none
              | some (v, r3) =>
                match skipWs r3 with
                | [] => none
                | d :: r4 =>
                  if d = ',' then (parseMembers f r4).map fun p => ((k, v) :: p.1, p.2)
                  else if d = '}' then some ([(k, v)], r4)
                  else none
            else none
      else none
end

/-- A whole JSON text: one value, with nothing but whitespace after it. The
fuel is enough for every text (`parseText_fuel`): two nested calls consume at
least one character. -/
def parseText (cs : List Char) : Option JVal :=
  match parseValue (2 * cs.length + 2) cs with
  | none => none
  | some (v, rest) => if skipWs rest = [] then some v else none

/-- What may follow a value inside a JSON text. -/
def Delim (rest : List Char) : Prop :=
  rest = [] ∨ ∃ tl, rest = ',' :: tl ∨ rest = ']' :: tl ∨ rest = '}' :: tl


/-! ## JavaScript values and errors -/

/-- A thrown error. The handlers observe only its `message`. -/
structure JsError where
  name : String
  message : String
  deriving DecidableEq, Repr

/-- The `SyntaxError` of `JSON.parse`. Its wording is the engine's; the model
fixes one non-empty text. -/
def syntaxError : JsError := ⟨"SyntaxError", "Unexpected token in JSON"⟩

/-- The `TypeError` of a property read on `null`. -/
def nullReadError (k : String) : JsError :=
  ⟨"TypeError", "Cannot read properties of null (reading '" ++ k ++ "')"⟩

/-- The `TypeError` of converting an object that has no callable `toString`. -/
def toPrimitiveError : JsError := ⟨"TypeError", "Cannot convert object to primitive value"⟩

/-- The `TypeError` of calling something that is not a function. -/
def notFunctionError (what : String) : JsError := ⟨"TypeError", what ++ " is not a function"⟩

/-- The `TypeError` of iterating something that is not iterable. -/
def notIterableError (what : String) : JsError := ⟨"TypeError", what ++ " is not iterable"⟩

/-- Model of `new Error(message)`. -/
def mkError (message : String) : JsError := ⟨"Error", message⟩

namespace JSON

/-- Model of `JSON.parse(text)`. -/
def parse (text : String) : Except JsError JVal :=
  match parseText text.data with
  | some v => .ok v
  | none => .error syntaxError

/-- Model of `JSON.stringify(v)` for a JSON value. -/
def stringify (v : JVal) : String := String.mk (stringifyVal v)

end JSON

/-- Truthiness of a value (`undefined` is `none`). -/
def truthy : Option JVal → Bool
  | none => false
  | some .null => false
  | some (.bool b) => b
  | some (.num n) => n ≠ 0
  | some (.dec _) => true
  | some (.str s) => s ≠ ""
  | some (.arr _) => true
  | some (.obj _) => true

/-- Model of `a || b`. -/
def jsOr (a b : Option JVal) : Option JVal := if truthy a then a else b

/-- Own property `k` of an object: the last member of that name. -/
def lookupLast : List (String × JVal) → String → Option JVal
  | [], _ => none
  | (k1, v) :: rest, k =>
    match lookupLast rest k with
    | some w => some w
    | none => if k1 = k then some v else none

/-- Model of the property read `v.k`, for the names the scripts read (`q`,
`category`, `advice`, `detail`, `access_token`, `msg`, `type`): none of them
is inherited from a prototype, so the read is the own property of an object
and `undefined` on every other value but `null`, where it throws. -/
def getProp (v : JVal) (k : String) : Except JsError (Option JVal) :=
  match v with
  | .null => .error (nullReadError k)
  | .obj kvs => .ok (lookupLast kvs k)
  | _ => .ok none

mutual
/-- Model of `String(v)`: an object converts through `Object.prototype.toString`
unless an own member named `toString` (never callable in parsed JSON) shadows it. -/
def toStr : JVal → Except JsError String
  | .null => .ok "null"
  | .bool true => .ok "true"
  | .bool false => .ok "false"
  | .num n => .ok (String.mk (intDigits n))
  | .dec d => .ok (String.mk (decDigits d))
  | .str s => .ok s
  | .arr xs => joinElems "," xs
  | .obj kvs =>
    match lookupLast kvs "toString" with
    | some _ => .error toPrimitiveError
    | none => .ok "[object Object]"
/-- Model of `Array.prototype.join(sep)`: `null` elements contribute nothing. -/
def joinElems (sep : String) : List JVal → Except JsError String
  | [] => .ok ""
  | v :: vs =>
    match (match v with | .null => Except.ok "" | _ => toStr v : Except JsError String) with
    | .error e => .error e
    | .ok s =>
      match vs with
      | [] => .ok s
      | _ :: _ =>
        match joinElems sep vs with
        | .error e => .error e
        | .ok t => .ok (s ++ sep ++ t)
end

/-- String conversion of a possibly undefined value, as in a template literal. -/
def toStrU : Option JVal → Except JsError String
  | none => .ok "undefined"
  | some v => toStr v

/-- The text a `textContent` assignment stores: `null` and `undefined` clear it. -/
def domText : Option JVal → Except JsError String
  | none => .ok ""
  | some .null => .ok ""
  | some v => toStr v

/-- The characters `String.prototype.trim` removes. -/
def isJsSpace (c : Char) : Bool :=
  let n := c.toNat
  n = 9 || n = 10 || n = 11 || n = 12 || n = 13 || n = 32 || n = 160 || n = 0x1680
    || (decide (0x2000 ≤ n) && decide (n ≤ 0x200A)) || n = 0x2028 || n = 0x2029
    || n = 0x202F || n = 0x205F || n = 0x3000 || n = 0xFEFF

/-- Model of `s.trim()`. -/
def jsTrim (s : String) : String :=
  String.mk ((s.data.dropWhile isJsSpace).reverse.dropWhile isJsSpace).reverse

/-! ## localStorage -/

/-- Model of `localStorage`: a string or nothing under every key. -/
structure Storage where
  items : String → Option String

namespace Storage

/-- A storage with no key set. -/
def empty : Storage := ⟨fun _ => none⟩

/-- Model of `localStorage.getItem(key)`; `none` is `null`. -/
def getItem (s : Storage) (key : String) : Option String := s.items key

/-- Model of `localStorage.setItem(key, value)`. -/
def setItem (s : Storage) (key value : String) : Storage :=
  ⟨fun k => if k = key then some value else s.items k⟩

/-- Model of `localStorage.removeItem(key)`. -/
def removeItem (s : Storage) (key : String) : Storage :=
  ⟨fun k => if k = key then none else s.items k⟩

end Storage

/-- Model of `stored || fallback` on the result of `getItem`. -/
def orDefault (stored : Option String) (fallback : String) : String :=
  match stored with
  | none => fallback
  | some s => if s = "" then fallback else s

/-! ## Statements that mutate the page and may throw -/

/-- A block of statements over a state `σ`: it yields a value or throws, and
either way leaves a state behind. -/
def Js (σ α : Type) : Type := σ → Except JsError α × σ

namespace Js

variable {σ α β : Type}

/-- Run a block from a state. -/
def run (m : Js σ α) (s : σ) : Except JsError α × σ := m s

/-- The state a block leaves behind. -/
def exec (m : Js σ α) (s : σ) : σ := (m s).2

/-- A block that yields `a`. -/
def ret (a : α) : Js σ α := fun s => (.ok a, s)

/-- Sequencing: a throw in the first block skips the second. -/
def seq (m : Js σ α) (f : α → Js σ β) : Js σ β := fun s =>
  match m s with
  | (.ok a, s1) => f a s1
  | (.error e, s1) => (.error e, s1)

/-- Model of `throw e`. -/
def raise (e : JsError) : Js σ α := fun s => (.error e, s)

/-- Model of `try { m } catch (err) { h err }`. -/
def attempt (m : Js σ α) (h : JsError → Js σ α) : Js σ α := fun s =>
  match m s with
  | (.ok a, s1) => (.ok a, s1)
  | (.error e, s1) => h e s1

/-- Model of `try { m } finally { fin }`. -/
def ensuring (m : Js σ α) (fin : Js σ Unit) : Js σ α := fun s =>
  match m s with
  | (r, s1) =>
    match fin s1 with
    | (.ok _, s2) => (r, s2)
    | (.error e, s2) => (.error e, s2)

/-- A state update that cannot throw. -/
def update (f : σ → σ) : Js σ Unit := fun s => (.ok (), f s)

/-- Read the state. -/
def read : Js σ σ := fun s => (.ok s, s)

/-- An expression that may throw and touches no state. -/
def ofExcept (x : Except JsError α) : Js σ α := fun s => (x, s)

end Js

instance (σ : Type) : Monad (Js σ) where
  pure := Js.ret
  bind := Js.seq


/-! ## Network calls and `async` handlers -/

/-- What a handler passes to `fetch`. -/
structure Request where
  url : String
  authorization : Option String
  body : String
  deriving DecidableEq, Repr

/-- How a `fetch` call settles: the promise rejects, or a response arrives
with a status and a body text. -/
inductive FetchOutcome where
  | rejected (err : JsError)
  | response (status : Nat) (body : String)
  deriving DecidableEq, Repr

/-- Model of `res.ok`. -/
def isOk (status : Nat) : Bool := decide (200 ≤ status) && decide (status ≤ 299)

/-- Model of `res.json()` on a response whose body text is `body`: the text,
less a leading byte order mark (which the decoder of the body drops), through
`JSON.parse`. -/
def resJson (body : String) : Except JsError JVal :=
  match body.data with
  | [] => JSON.parse body
  | c :: cs => if c.toNat = 0xFEFF then JSON.parse (String.mk cs) else JSON.parse body

/-- Where the synchronous part of an `async` function stops: it has returned,
or it waits for the network call it issued. -/
inductive Started (α : Type) where
  | done (a : α)
  | waiting (req : Request)

/-- An `async` function with at most one network call: `start` runs when the
function is called, `resume` when the call settles. -/
structure Async (σ α : Type) where
  start : Js σ (Started α)
  resume : FetchOutcome → Js σ α

namespace Async

variable {σ α : Type}

/-- The whole run of an `async` function whose network call settles as `o`. -/
def complete (h : Async σ α) (o : FetchOutcome) : Js σ α := fun s =>
  match h.start s with
  | (.ok (.done a), s1) => (.ok a, s1)
  | (.ok (.waiting _), s1) => h.resume o s1
  | (.error e, s1) => (.error e, s1)

/-- The state while the network call is outstanding (or on return, when none
was issued). -/
def pendingState (h : Async σ α) (s : σ) : σ := (h.start s).2

/-- The request a handler issues from a state, if any. -/
def request (h : Async σ α) (s : σ) : Option Request :=
  match (h.start s).1 with
  | .ok (.waiting req) => some req
  | _ => none

end Async

/-! ## The conversation page (`app.js`) -/

namespace App

/-- A child of `#history-list`. The markup of an answer is kept as text. -/
inductive Bubble where
  | question (text : String)
  | answer (html : String)
  | pending (id : Nat)
  deriving DecidableEq, Repr

/-- What `app.js` reads and writes: `localStorage` and the properties of the
page's elements that the script sets, with the `disabled` property of the two
buttons, which it never sets. -/
structure Page where
  storage : Storage
  statusHidden : Bool
  statusText : String
  resultHidden : Bool
  pillText : String
  adviceText : String
  historySectionHidden : Bool
  historyList : List Bubble
  authStatusHidden : Bool
  authStatusText : String
  authStatusColor : String
  signupDisplay : String
  loginDisplay : String
  logoutDisplay : String
  signupDisabled : Bool
  loginDisabled : Bool

/-- A freshly loaded page over a given storage. -/
def Page.fresh (storage : Storage) : Page :=
  { storage := storage, statusHidden := true, statusText := "", resultHidden := true,
    pillText := "", adviceText := "", historySectionHidden := false, historyList := [],
    authStatusHidden := true, authStatusText := "", authStatusColor := "",
    signupDisplay := "", loginDisplay := "", logoutDisplay := "",
    signupDisabled := false, loginDisabled := false }

/-- The key of the history log. -/
def LS_KEY : String := "qa_history"

/-- The value `loadHistory` returns over a storage:
`try { return JSON.parse(getItem(LS_KEY) || '[]') } catch { return [] }`. -/
def storedHistory (s : Storage) : JVal :=
  match JSON.parse (orDefault (s.getItem LS_KEY) "[]") with
  | .ok v => v
  | .error _ => .arr []

/-- Model of `loadHistory()`. -/
def loadHistory : Js Page JVal := fun p => (.ok (storedHistory p.storage), p)

/-- Model of `saveHistory(items)`. -/
def saveHistory (items : JVal) : Js Page Unit :=
  Js.update fun p => { p with storage := p.storage.setItem LS_KEY (JSON.stringify items) }

/-- Model of `clearHistory()`. -/
def clearHistory : Js Page Unit :=
  Js.update fun p => { p with storage := p.storage.removeItem LS_KEY }

/-- The table of `categoryLabel`. -/
def categoryMap : List (String × String) :=
  [("phishing", "التصيد"), ("passwords", "كلمات المرور"), ("malware", "برمجيات خبيثة"),
   ("networks", "أمن الشبكات"), ("incident_response", "الاستجابة للحوادث"), ("general", "عام")]

/-- The functions an object literal inherits from `Object.prototype`, by
property name, with the name each function prints under. -/
def inheritedFunctions : List (String × String) :=
  [("constructor", "Object"), ("toString", "toString"), ("toLocaleString", "toLocaleString"),
   ("valueOf", "valueOf"), ("hasOwnProperty", "hasOwnProperty"),
   ("isPrototypeOf", "isPrototypeOf"), ("propertyIsEnumerable", "propertyIsEnumerable"),
   ("__defineGetter__", "__defineGetter__"), ("__defineSetter__", "__defineSetter__"),
   ("__lookupGetter__", "__lookupGetter__"), ("__lookupSetter__", "__lookupSetter__")]

/-- What `map[cat] || cat` evaluates to: a JSON value (a label of the table, or
`cat` itself), a function inherited from `Object.prototype`, or, under the
name `__proto__`, `Object.prototype` itself. -/
inductive Label where
  | value (v : Option JVal)
  | native (name : String)
  | proto

/-- Model of `categoryLabel(cat)`, that is `map[cat] || cat`: the key is the
string form of `cat`; an own label and an inherited member are truthy, and any
other key is `undefined` in `map`. -/
def categoryLabel (cat : Option JVal) : Except JsError Label :=
  match toStrU cat with
  | .error e => .error e
  | .ok key =>
    match categoryMap.lookup key with
    | some label => .ok (.value (some (.str label)))
    | none =>
      match inheritedFunctions.lookup key with
      | some name => .ok (.native name)
      | none => if key = "__proto__" then .ok .proto else .ok (.value cat)

/-- String form of a label, as in a template literal; a built-in function
prints as the engine prints native code. -/
def Label.text : Label → Except JsError String
  | .value v => toStrU v
  | .native name => .ok ("function " ++ name ++ "() \x7b [native code] \x7d")
  | .proto => .ok "[object Object]"

/-- The text a `textContent` assignment stores for a label. -/
def Label.domText : Label → Except JsError String
  | .value v => CyberAdvice.domText v
  | .native name => .ok ("function " ++ name ++ "() \x7b [native code] \x7d")
  | .proto => .ok "[object Object]"

/-- The values a `for ... of` loop visits: the elements of an array, the
characters of a string; nothing else that `JSON.parse` returns is iterable. -/
def forOf (items : JVal) : Except JsError (List JVal) :=
  match items with
  | .arr xs => .ok xs
  | .str s => .ok (s.data.map fun c => .str (String.singleton c))
  | _ => .error (notIterableError "items")

/-- Append a child to `#history-list`. -/
def appendBubble (b : Bubble) : Js Page Unit :=
  Js.update fun p => { p with historyList := p.historyList ++ [b] }

/-- The body of the loop of `renderHistory` for one item. -/
def renderItem (it : JVal) : Js Page Unit := do
  let q ← Js.ofExcept (getProp it "q")
  let qText ← Js.ofExcept (domText q)
  appendBubble (.question qText)
  let cat ← Js.ofExcept (getProp it "category")
  let label ← Js.ofExcept (categoryLabel cat)
  let labelText ← Js.ofExcept label.text
  let advice ← Js.ofExcept (getProp it "advice")
  let adviceText ← Js.ofExcept (toStrU advice)
  appendBubble (.answer
    ("<div class=\"pill\" style=\"margin-bottom:6px;\">" ++ labelText ++ "</div>" ++ adviceText))

/-- The loop of `renderHistory`. -/
def renderItems : List JVal → Js Page Unit
  | [] => Js.ret ()
  | it :: rest => Js.seq (renderItem it) fun _ => renderItems rest

/-- Model of `renderHistory()` (the final scroll leaves no trace in `Page`). -/
def renderHistory : Js Page Unit := do
  let items ← loadHistory
  Js.update fun p => { p with historySectionHidden := false }
  Js.update fun p => { p with historyList := [] }
  let xs ← Js.ofExcept (forOf items)
  renderItems xs

/-- A member of an object literal; `JSON.stringify`, the only reader of the
entry `addEntry` builds, leaves out a member whose value is `undefined`. -/
def member (k : String) (v : Option JVal) : List (String × JVal) :=
  match v with
  | none => []
  | some w => [(k, w)]

/-- The entry of `addEntry`: `{ q: qText, category, advice, ts: Date.now() }`. -/
def mkEntry (qText : String) (category advice : Option JVal) (now : Nat) : JVal :=
  .obj ([("q", .str qText)] ++ member "category" category ++ member "advice" advice
    ++ [("ts", .num now)])

/-- Model of `items.push(x)`; only an array has `push`. -/
def push (items : JVal) (x : JVal) : Except JsError JVal :=
  match items with
  | .arr xs => .ok (.arr (xs ++ [x]))
  | .null => .error (nullReadError "push")
  | _ => .error (notFunctionError "items.push")

/-- Model of `addEntry(qText, category, advice)`; `now` is what `Date.now()` returns. -/
def addEntry (qText : String) (category advice : Option JVal) (now : Nat) : Js Page Unit := do
  let items ← loadHistory
  let items1 ← Js.ofExcept (push items (mkEntry qText category advice now))
  saveHistory items1
  renderHistory

/-- Model of `setToken(t)`; `setItem` stores the string form of its argument. -/
def setToken (t : Option JVal) : Js Page Unit := do
  let text ← Js.ofExcept (toStrU t)
  Js.update fun p => { p with storage := p.storage.setItem "token" text }

/-- Model of `getToken()` over a storage. -/
def getToken (s : Storage) : String := orDefault (s.getItem "token") ""

/-- Model of `clearToken()`. -/
def clearToken : Js Page Unit :=
  Js.update fun p => { p with storage := p.storage.removeItem "token" }

/-- Model of `setAuthMessage(msg, isError)`. -/
def setAuthMessage (msg : String) (isError : Bool) : Js Page Unit :=
  Js.update fun p =>
    { p with authStatusHidden := decide (msg = ""), authStatusText := msg,
             authStatusColor := if isError then "#fca5a5" else "" }

/-- Model of `updateAuthUI()`. -/
def updateAuthUI : Js Page Unit :=
  Js.update fun p =>
    let hasToken := decide (getToken p.storage ≠ "")
    { p with signupDisplay := if hasToken then "none" else "",
             loginDisplay := if hasToken then "none" else "",
             logoutDisplay := if hasToken then "" else "none",
             historySectionHidden := false }

/-- The state `Authenticated` as the page shows it: `getToken()` is non-empty,
signup and login are hidden and logout is shown. -/
def Authenticated (p : Page) : Prop :=
  getToken p.storage ≠ "" ∧ p.signupDisplay = "none" ∧ p.loginDisplay = "none"
    ∧ p.logoutDisplay = ""

/-- Model of `err.message || fallback`. -/
def messageOr (err : JsError) (fallback : String) : String :=
  if err.message = "" then fallback else err.message

/-- The response of a settled call, or the rejection thrown at the `await`. -/
def awaitFetch (o : FetchOutcome) : Js Page (Nat × String) :=
  match o with
  | .rejected e => Js.raise e
  | .response status body => Js.ret (status, body)

/-- Model of `data?.detail`. -/
def optDetail (data : JVal) : Option JVal :=
  match data with
  | .obj kvs => lookupLast kvs "detail"
  | _ => none

/-- The `try` block of the signup and login handlers of `app.js` after the
`await fetch(...)`; `fallback` is the message of a failed request. -/
def authTry (fallback okMessage : String) (o : FetchOutcome) : Js Page Unit := do
  let res ← awaitFetch o
  let data ← Js.ofExcept (resJson res.2)
  if isOk res.1 then do
    let t ← Js.ofExcept (getProp data "access_token")
    setToken t
    setAuthMessage okMessage false
    updateAuthUI
    renderHistory
  else do
    let msg ← Js.ofExcept (toStrU (jsOr (optDetail data) (some (.str fallback))))
    Js.raise (mkError msg)

/-- The signup and login handlers of `app.js`, which differ in their texts
and in the URL. -/
def authClick (url progress fallback okMessage : String) (emailValue passwordValue : String) :
    Async Page Unit :=
  let email := jsTrim emailValue
  let password := jsTrim passwordValue
  { start :=
      if email = "" ∨ password = "" then
        Js.seq (setAuthMessage "يرجى إدخال البريد وكلمة المرور" true) fun _ => Js.ret (.done ())
      else
        Js.seq (setAuthMessage progress false) fun _ =>
          Js.ret (.waiting
            { url := url, authorization := none,
              body := JSON.stringify (.obj [("email", .str email), ("password", .str password)]) })
    resume := fun o =>
      Js.attempt (authTry fallback okMessage o)
        fun err => setAuthMessage (messageOr err "خطأ غير متوقع") true }

/-- The click handler of `#signup-btn`. -/
def signupClick (emailValue passwordValue : String) : Async Page Unit :=
  authClick "/auth/signup" "جاري إنشاء الحساب..." "فشل إنشاء الحساب"
    "تم إنشاء الحساب وتسجيل الدخول" emailValue passwordValue

/-- The click handler of `#login-btn`. -/
def loginClick (emailValue passwordValue : String) : Async Page Unit :=
  authClick "/auth/login" "جاري تسجيل الدخول..." "بيانات الدخول غير صحيحة"
    "تم تسجيل الدخول" emailValue passwordValue

/-- The click handler of `#logout-btn`. -/
def logoutClick : Js Page Unit := do
  clearToken
  setAuthMessage "تم تسجيل الخروج" false
  updateAuthUI
  Js.update fun p => { p with historyList := [] }

/-- The click handler of `#clear-history-btn`. -/
def clearHistoryClick : Js Page Unit := do
  clearHistory
  Js.update fun p => { p with historyList := [] }

/-- Whether a bubble is a pending placeholder (`[data-pending]`). -/
def Bubble.isPending : Bubble → Bool
  | .pending _ => true
  | _ => false

/-- Model of `querySelector('[data-pending]')` followed by `remove()`: the
first placeholder, if any, leaves the list. -/
def removeFirstPending : List Bubble → List Bubble
  | [] => []
  | b :: rest => if b.isPending then rest else b :: removeFirstPending rest

/-- The `try` block of the ask handler after the `await fetch(...)`. -/
def askTry (q : String) (o : FetchOutcome) (now : Nat) : Js Page Unit := do
  let res ← awaitFetch o
  if res.1 = 401 then Js.raise (mkError "الرجاء تسجيل الدخول أولاً")
  else if !isOk res.1 then Js.raise (mkError ("HTTP " ++ String.mk (natDigits res.1)))
  else do
    let data ← Js.ofExcept (resJson res.2)
    let cat ← Js.ofExcept (getProp data "category")
    let label ← Js.ofExcept (categoryLabel cat)
    let pill ← Js.ofExcept label.domText
    Js.update fun p => { p with pillText := pill }
    let advice ← Js.ofExcept (getProp data "advice")
    let adviceText ← Js.ofExcept (domText advice)
    Js.update fun p => { p with adviceText := adviceText }
    Js.update fun p => { p with resultHidden := false }
    Js.update fun p => { p with historyList := removeFirstPending p.historyList }
    addEntry q cat advice now

/-- The `catch` block of the ask handler. -/
def askCatch (err : JsError) : Js Page Unit := do
  Js.update fun p => { p with adviceText := messageOr err "حدث خطأ غير متوقع. حاول مجدداً." }
  Js.update fun p => { p with resultHidden := false }

/-- The submit handler of `#ask-form`; `now1` and `now2` are what `Date.now()`
returns for the placeholder and for the entry. -/
def askSubmit (questionValue : String) (now1 now2 : Nat) : Async Page Unit :=
  let q := jsTrim questionValue
  { start :=
      if q = "" then Js.ret (.done ())
      else do
        Js.update fun p => { p with statusHidden := false }
        Js.update fun p => { p with resultHidden := true }
        Js.update fun p => { p with statusText := "جاري المعالجة..." }
        let p ← Js.read
        let token := getToken p.storage
        appendBubble (.pending now1)
        Js.ret (.waiting
          { url := "/ask",
            authorization := if token = "" then none else some ("Bearer " ++ token),
            body := JSON.stringify (.obj [("question", .str q)]) })
    resume := fun o =>
      Js.ensuring (Js.attempt (askTry q o now2) askCatch)
        (Js.update fun p => { p with statusHidden := true }) }

/-- The failing outcomes of the ask request: a rejected call, a 401, any other
non-success status, or a body that is not JSON. -/
def askFails (o : FetchOutcome) : Bool :=
  match o with
  | .rejected _ => true
  | .response status body =>
    status = 401 || !isOk status ||
      (match resJson body with
       | .ok _ => false
       | .error _ => true)

/-- One call of `addEntry`. -/
structure Call where
  question : String
  category : Option JVal
  advice : Option JVal
  now : Nat

/-- The entry a call persists. -/
def Call.entry (c : Call) : JVal := mkEntry c.question c.category c.advice c.now

/-- A sequence of `addEntry` calls, each on the state the previous one left. -/
def addEntries (calls : List Call) (p : Page) : Page :=
  calls.foldl (fun s c => (addEntry c.question c.category c.advice c.now).exec s) p

end App

/-! ## The authentication page (`auth.js`) -/

namespace Auth

/-- The two buttons `withDisabled` is applied to. -/
inductive Btn where
  | signup
  | login
  deriving DecidableEq, Repr

/-- The two input fields. -/
inductive Field where
  | email
  | password
  deriving DecidableEq, Repr

/-- What `auth.js` reads and writes: `localStorage`, the properties of the
page's elements that the script sets, the field that has the focus and the
delay of a scheduled redirect to `/`. -/
structure Page where
  storage : Storage
  authStatusHidden : Bool
  authStatusText : String
  signupDisplay : String
  loginDisplay : String
  logoutDisplay : String
  signupDisabled : Bool
  loginDisabled : Bool
  emailBorder : String
  passwordBorder : String
  focused : Option Field
  redirectDelay : Option Nat

/-- A freshly loaded page over a given storage. -/
def Page.fresh (storage : Storage) : Page :=
  { storage := storage, authStatusHidden := true, authStatusText := "",
    signupDisplay := "", loginDisplay := "", logoutDisplay := "",
    signupDisabled := false, loginDisabled := false,
    emailBorder := "", passwordBorder := "", focused := none, redirectDelay := none }

/-- Model of `setAuthMessage(msg, isError)`; this version ignores `isError`. -/
def setAuthMessage (msg : String) : Js Page Unit :=
  Js.update fun p => { p with authStatusHidden := decide (msg = ""), authStatusText := msg }

/-- Model of `setToken(t)`; `setItem` stores the string form of its argument. -/
def setToken (t : Option JVal) : Js Page Unit := do
  let text ← Js.ofExcept (toStrU t)
  Js.update fun p => { p with storage := p.storage.setItem "token" text }

/-- Model of `getToken()` over a storage. -/
def getToken (s : Storage) : String := orDefault (s.getItem "token") ""

/-- Model of `clearToken()`. -/
def clearToken : Js Page Unit :=
  Js.update fun p => { p with storage := p.storage.removeItem "token" }

/-- Model of `updateUI()`. -/
def updateUI : Js Page Unit :=
  Js.update fun p =>
    let hasToken := decide (getToken p.storage ≠ "")
    { p with signupDisplay := if hasToken then "none" else "",
             loginDisplay := if hasToken then "none" else "",
             logoutDisplay := if hasToken then "" else "none" }

/-- The state `Authenticated` as the page shows it: `getToken()` is non-empty,
signup and login are hidden and logout is shown. -/
def Authenticated (p : Page) : Prop :=
  getToken p.storage ≠ "" ∧ p.signupDisplay = "none" ∧ p.loginDisplay = "none"
    ∧ p.logoutDisplay = ""

/-- The callback of `parseErrorDetail`: `d.msg || d.type || JSON.stringify(d)`. -/
def detailField (d : JVal) : Except JsError JVal :=
  match getProp d "msg" with
  | .error e => .error e
  | .ok msg =>
    match msg with
    | some m => if truthy (some m) then .ok m else
        match getProp d "type" with
        | .error e => .error e
        | .ok ty =>
          match ty with
          | some t => if truthy (some t) then .ok t else .ok (.str (JSON.stringify d))
          | none => .ok (.str (JSON.stringify d))
    | none =>
      match getProp d "type" with
      | .error e => .error e
      | .ok ty =>
        match ty with
        | some t => if truthy (some t) then .ok t else .ok (.str (JSON.stringify d))
        | none => .ok (.str (JSON.stringify d))

/-- Model of `detail.map(d => ...)` with the callback of `parseErrorDetail`. -/
def detailFields : List JVal → Except JsError (List JVal)
  | [] => .ok []
  | d :: ds =>
    match detailField d with
    | .error e => .error e
    | .ok x =>
      match detailFields ds with
      | .error e => .error e
      | .ok xs => .ok (x :: xs)

/-- Model of `parseErrorDetail(data)`; `none` is `null`. -/
def parseErrorDetail (data : JVal) : Option String :=
  if truthy (some data) then
    match getProp data "detail" with
    | .ok (some (.arr ds)) =>
      match detailFields ds with
      | .error _ => some "Validation error"
      | .ok xs =>
        match joinElems " | " xs with
        | .error _ => some "Validation error"
        | .ok s => some s
    | _ => none
  else none

/-- The field the specification of `parseErrorDetail` names for an element of
`detail`: the element is an object, and the field is its `msg` when that is a
non-empty string, otherwise (no `msg`, or an empty one) its non-empty `type`. -/
def HasField (d : JVal) (f : String) : Prop :=
  ∃ kvs, d = .obj kvs ∧ f ≠ "" ∧
    (lookupLast kvs "msg" = some (.str f) ∨
      ((lookupLast kvs "msg" = none ∨ lookupLast kvs "msg" = some (.str ""))
        ∧ lookupLast kvs "type" = some (.str f)))

/-- Model of `data && data.detail`; a truthy `data` is not `null`, so the
read does not throw. -/
def dataAndDetail (data : JVal) : Option JVal :=
  if truthy (some data) then
    match getProp data "detail" with
    | .ok v => v
    | .error _ => none
  else some data

/-- Model of `parseErrorDetail(data) || (data && data.detail) || fallback`. -/
def failureDetail (data : JVal) (fallback : String) : Option JVal :=
  jsOr (jsOr ((parseErrorDetail data).map JVal.str) (dataAndDetail data)) (some (.str fallback))

/-- Set the `disabled` property of a button. -/
def setDisabled (v : Bool) (b : Btn) (p : Page) : Page :=
  match b with
  | .signup => { p with signupDisabled := v }
  | .login => { p with loginDisabled := v }

/-- The `disabled` property of a button. -/
def isDisabled (b : Btn) (p : Page) : Bool :=
  match b with
  | .signup => p.signupDisabled
  | .login => p.loginDisabled

/-- Model of `arr.forEach(b => b && (b.disabled = v))`. -/
def setAllDisabled (v : Bool) (btns : List Btn) : Js Page Unit :=
  Js.update fun p => btns.foldl (fun s b => setDisabled v b s) p

/-- The `finally` block of an `async` function at the end of its synchronous
part: it runs unless the function waits for its network call. -/
def finallyUnlessWaiting {α : Type} (m : Js Page (Started α)) (fin : Js Page Unit) :
    Js Page (Started α) := fun s =>
  match m s with
  | (.ok (.waiting req), s1) => (.ok (.waiting req), s1)
  | (r, s1) =>
    match fin s1 with
    | (.ok _, s2) => (r, s2)
    | (.error e, s2) => (.error e, s2)

/-- Model of `withDisabled(btns, fn)`:
`forEach(disable); try { return await fn(); } finally { forEach(enable) }`. -/
def withDisabled {α : Type} (btns : List Btn) (fn : Async Page α) : Async Page α :=
  { start := Js.seq (setAllDisabled true btns) fun _ =>
      finallyUnlessWaiting fn.start (setAllDisabled false btns)
    resume := fun o => Js.ensuring (fn.resume o) (setAllDisabled false btns) }

/-- Model of `try { data = await res.json(); } catch {}` after `let data = null`. -/
def jsonOrNull (body : String) : JVal :=
  match resJson body with
  | .ok v => v
  | .error _ => .null

/-- The response of a settled call, or the rejection thrown at the `await`. -/
def awaitFetch (o : FetchOutcome) : Js Page (Nat × String) :=
  match o with
  | .rejected e => Js.raise e
  | .response status body => Js.ret (status, body)

/-- The `try` block of the function the handlers pass to `withDisabled`,
after the `await fetch(...)`. -/
def authTry (fallback okMessage : String) (delay : Nat) (o : FetchOutcome) : Js Page Unit := do
  let res ← awaitFetch o
  let data := jsonOrNull res.2
  if isOk res.1 then do
    let t ← Js.ofExcept (getProp data "access_token")
    setToken t
    setAuthMessage okMessage
    updateUI
    Js.update fun p => { p with redirectDelay := some delay }
  else do
    let msg ← Js.ofExcept (toStrU (failureDetail data fallback))
    Js.raise (mkError msg)

/-- Model of `err.message || fallback`. -/
def messageOr (err : JsError) (fallback : String) : String :=
  if err.message = "" then fallback else err.message

/-- The function the handlers pass to `withDisabled`. -/
def authFn (url fallback okMessage : String) (delay : Nat) (email password : String) :
    Async Page Unit :=
  { start := Js.ret (.waiting
      { url := url, authorization := none,
        body := JSON.stringify (.obj [("email", .str email), ("password", .str password)]) })
    resume := fun o =>
      Js.attempt (authTry fallback okMessage delay o)
        fun err => setAuthMessage (messageOr err "خطأ غير متوقع") }

/-- The function of the signup handler. -/
def signupFn (email password : String) : Async Page Unit :=
  authFn "/auth/signup" "فشل إنشاء الحساب" "تم إنشاء الحساب وتسجيل الدخول" 600 email password

/-- The function of the login handler. -/
def loginFn (email password : String) : Async Page Unit :=
  authFn "/auth/login" "بيانات الدخول غير صحيحة" "تم تسجيل الدخول" 400 email password

/-- The click handler of `#signup-btn`. -/
def signupClick (emailValue passwordValue : String) : Async Page Unit :=
  let email := jsTrim emailValue
  let password := jsTrim passwordValue
  { start :=
      if email = "" ∨ password = "" then do
        setAuthMessage "يرجى إدخال البريد وكلمة المرور"
        Js.update fun p => { p with emailBorder := if email = "" then "#f87171" else "" }
        Js.update fun p => { p with passwordBorder := if password = "" then "#f87171" else "" }
        Js.update fun p =>
          { p with focused := if email = "" then some .email
                              else if password = "" then some .password else p.focused }
        Js.ret (.done ())
      else do
        Js.update fun p => { p with emailBorder := "" }
        Js.update fun p => { p with passwordBorder := "" }
        setAuthMessage "جاري إنشاء الحساب..."
        (withDisabled [.signup, .login] (signupFn email password)).start
    resume := (withDisabled [.signup, .login] (signupFn email password)).resume }

/-- The click handler of `#login-btn`. -/
def loginClick (emailValue passwordValue : String) : Async Page Unit :=
  let email := jsTrim emailValue
  let password := jsTrim passwordValue
  { start :=
      if email = "" ∨ password = "" then do
        setAuthMessage "يرجى إدخال البريد وكلمة المرور"
        Js.ret (.done ())
      else do
        setAuthMessage "جاري تسجيل الدخول..."
        (withDisabled [.signup, .login] (loginFn email password)).start
    resume := (withDisabled [.signup, .login] (loginFn email password)).resume }

/-- The click handler of `#logout-btn`. -/
def logoutClick : Js Page Unit := do
  clearToken
  setAuthMessage "تم تسجيل الخروج"
  updateUI

end Auth

/-! ## The parser inverts the serializer -/

theorem skipWs_cons_of_not_ws (c : Char) (cs : List Char) (h : isWs c = false) :
    skipWs (c :: cs) = c :: cs := by
  simp [skipWs, h]

theorem parseDigits_append (ds rest : List Char) (a : Nat)
    (hds : ∀ c ∈ ds, isDigit c = true)
    (hrest : ∀ c tl, rest = c :: tl → isDigit c = false) :
    parseDigits a (ds ++ rest) = (ds.foldl (fun x c => x * 10 + digitVal c) a, rest) := by
  induction ds generalizing a with
  | nil =>
    cases rest with
    | nil => simp [parseDigits]
    | cons c tl => simp [parseDigits, hrest c tl rfl]
  | cons d ds ih =>
    have hd : isDigit d = true := hds d (by simp)
    simp only [List.cons_append, parseDigits, hd, if_true, List.foldl_cons]
    exact ih _ (fun c hc => hds c (by simp [hc]))

theorem natDigitsAux_acc (f n : Nat) (acc : List Char) :
    natDigitsAux f n acc = natDigitsAux f n [] ++ acc := by
  induction f generalizing n acc with
  | zero => simp [natDigitsAux]
  | succ f ih =>
    simp only [natDigitsAux]
    split
    · simp
    · rw [ih (n / 10) (digitChar (n % 10) :: acc), ih (n / 10) [digitChar (n % 10)]]
      simp

theorem digitChar_isDigit (d : Nat) (h : d < 10) : isDigit (digitChar d) = true := by
  interval_cases d <;> rfl

theorem digitChar_val (d : Nat) (h : d < 10) : digitVal (digitChar d) = d := by
  interval_cases d <;> rfl

theorem digitChar_eq_zero (d : Nat) (h : d < 10) : digitChar d = '0' ↔ d = 0 := by
  interval_cases d <;> decide

/-- What the digits of a number are: digits only, denoting the number, with no
leading zero unless the number is zero. -/
theorem natDigitsAux_spec (f n : Nat) (h : n < f) :
    (∀ c ∈ natDigitsAux f n [], isDigit c = true) ∧
    (natDigitsAux f n []).foldl (fun x c => x * 10 + digitVal c) 0 = n ∧
    (∃ c tl, natDigitsAux f n [] = c :: tl ∧ (c = '0' → n = 0 ∧ tl = [])) := by
  induction f generalizing n with
  | zero => omega
  | succ f ih =>
    simp only [natDigitsAux]
    split
    · rename_i hlt
      refine ⟨?_, ?_, ?_⟩
      · intro c hc
        simp at hc
        subst hc
        exact digitChar_isDigit n hlt
      · simp [digitChar_val n hlt]
      · exact ⟨digitChar n, [], rfl, fun h0 => ⟨(digitChar_eq_zero n hlt).1 h0, rfl⟩⟩
    · rename_i hge
      have hq : n / 10 < f := by omega
      have hq0 : n / 10 ≠ 0 := by omega
      have hr : n % 10 < 10 := Nat.mod_lt _ (by decide)
      obtain ⟨h1, h2, c, tl, h3, h4⟩ := ih (n / 10) hq
      rw [natDigitsAux_acc]
      refine ⟨?_, ?_, ?_⟩
      · intro c hc
        simp at hc
        rcases hc with hc | hc
        · exact h1 c hc
        · subst hc
          exact digitChar_isDigit _ hr
      · rw [List.foldl_append, h2]
        simp [digitChar_val _ hr]
        omega
      · refine ⟨c, tl ++ [digitChar (n % 10)], by simp [h3], ?_⟩
        intro hc
        exact absurd (h4 hc).1 hq0

theorem parseNat_natDigits (n : Nat) (rest : List Char)
    (hrest : ∀ c tl, rest = c :: tl → isDigit c = false) :
    parseNat (natDigits n ++ rest) = some (n, rest) := by
  obtain ⟨h1, h2, c, tl, h3, h4⟩ := natDigitsAux_spec (n + 1) n (Nat.lt_succ_self n)
  unfold natDigits
  rw [h3] at h1 h2
  rw [h3]
  simp only [List.cons_append, parseNat]
  by_cases hc : c = '0'
  · obtain ⟨hn, htl⟩ := h4 hc
    simp [hc, hn, htl]
  · have hcd : isDigit c = true := h1 c (by simp)
    simp only [hc, if_false, hcd, if_true]
    rw [parseDigits_append tl rest _ (fun d hd => h1 d (by simp [hd])) hrest]
    simp only [List.foldl_cons, Nat.zero_mul, Nat.zero_add] at h2
    rw [h2]


theorem char_eq_ofNat (c : Char) (n : Nat) (h : c.toNat = n) : c = Char.ofNat n := by
  rw [← h, Char.ofNat_toNat]

theorem parseStrBody_escapeChar (c : Char) (f : Nat) (tail : List Char) :
    parseStrBody (f + 1) (escapeChar c ++ tail)
      = (parseStrBody f tail).map fun p => (c :: p.1, p.2) := by
  unfold escapeChar
  split
  · rename_i h; subst h; rfl
  split
  · rename_i h; subst h; rfl
  split
  · rename_i h; subst h; rfl
  split
  · rename_i h; subst h; rfl
  split
  · rename_i h; subst h; rfl
  split
  · rename_i h; rw [char_eq_ofNat c 8 h]; rfl
  split
  · rename_i h; rw [char_eq_ofNat c 12 h]; rfl
  split
  · rename_i h1 h2 h3 h4 h5 h6 h7 h
    generalize hn : c.toNat = n at h
    have hc := char_eq_ofNat c n hn
    subst hc
    interval_cases n <;> rfl
  · rename_i h1 h2 h3 h4 h5 h6 h7 h
    simp [parseStrBody, h1, h2, h]


theorem parseStrBody_escapeChars (s : List Char) (f : Nat) (rest : List Char)
    (hf : s.length < f) :
    parseStrBody f (escapeChars s ++ '"' :: rest) = some (s, rest) := by
  induction s generalizing f with
  | nil =>
    cases f with
    | zero => omega
    | succ f => rfl
  | cons c cs ih =>
    cases f with
    | zero => omega
    | succ f =>
      simp only [escapeChars, List.append_assoc]
      rw [parseStrBody_escapeChar, ih f (by simpa using hf)]
      rfl

theorem escapeChar_length (c : Char) : 1 ≤ (escapeChar c).length := by
  unfold escapeChar
  repeat' split
  all_goals simp

theorem escapeChars_length (s : List Char) : s.length ≤ (escapeChars s).length := by
  induction s with
  | nil => simp [escapeChars]
  | cons c cs ih =>
    have := escapeChar_length c
    simp only [escapeChars, List.length_cons, List.length_append]
    omega

theorem parseString_quote (s : String) (rest : List Char) :
    parseString (escapeChars s.data ++ '"' :: rest) = some (s, rest) := by
  unfold parseString
  rw [parseStrBody_escapeChars]
  · rfl
  · have := escapeChars_length s.data
    simp only [List.length_append, List.length_cons]
    omega

theorem Delim.not_digit {rest : List Char} (h : Delim rest) :
    ∀ c tl, rest = c :: tl → isDigit c = false := by
  intro c tl hc
  rcases h with h | ⟨t, h | h | h⟩ <;> rw [h] at hc
  · cases hc
  all_goals (injection hc with h1 h2; subst h1; rfl)

theorem Delim.no_fraction {rest : List Char} (h : Delim rest) :
    parseFraction rest = some (0, 0, rest) := by
  rcases h with h | ⟨t, h | h | h⟩ <;> subst h <;> rfl

theorem Delim.no_exponent {rest : List Char} (h : Delim rest) :
    parseExponent rest = some (0, rest) := by
  rcases h with h | ⟨t, h | h | h⟩ <;> subst h <;> rfl

theorem natDigits_head (n : Nat) :
    ∃ c tl, natDigits n = c :: tl ∧ isDigit c = true := by
  obtain ⟨h1, _, c, tl, h3, _⟩ := natDigitsAux_spec (n + 1) n (Nat.lt_succ_self n)
  exact ⟨c, tl, h3, h1 c (by simp [h3])⟩

theorem digit_ne_minus {c : Char} (hd : isDigit c = true) : c ≠ '-' := by
  intro h0; subst h0; revert hd; decide

theorem mkNumber_int (neg : Bool) (m : Nat) (h : m = 0 → neg = false) :
    mkNumber neg (m * 10 ^ 0 + 0) (0 - ((0 : Nat) : Int)) = .num (signed neg m) := by
  simp only [pow_zero, Nat.mul_one, Nat.add_zero, Nat.cast_zero, sub_zero, mkNumber]
  by_cases hm : m = 0
  · simp [hm, h hm, signed]
  · simp [hm]

theorem parseNumber_intDigits (n : Int) (rest : List Char) (h : Delim rest) :
    parseNumber (intDigits n ++ rest) = some (.num n, rest) := by
  unfold intDigits
  split
  · rename_i hn
    simp only [List.cons_append, parseNumber, if_true]
    rw [parseNat_natDigits _ _ h.not_digit]
    simp only [h.no_fraction, h.no_exponent, decide_True]
    rw [mkNumber_int true n.natAbs (by intro h0; omega)]
    have : signed true n.natAbs = n := by simp only [signed, if_true]; omega
    rw [this]
  · rename_i hn
    obtain ⟨c, tl, hc, hd⟩ := natDigits_head n.natAbs
    have hparse := parseNat_natDigits n.natAbs rest h.not_digit
    rw [hc] at hparse ⊢
    have hne : c ≠ '-' := digit_ne_minus hd
    simp only [List.cons_append, parseNumber, hne, if_false]
    rw [List.cons_append] at hparse
    rw [hparse]
    simp only [h.no_fraction, h.no_exponent, decide_False]
    rw [mkNumber_int false n.natAbs (fun _ => rfl)]
    have : signed false n.natAbs = n := by
      simp only [signed, Bool.false_eq_true, if_false]; omega
    rw [this]

theorem parseFracDigits_append (ds rest : List Char) (a c : Nat)
    (hds : ∀ x ∈ ds, isDigit x = true)
    (hrest : ∀ x tl, rest = x :: tl → isDigit x = false) :
    parseFracDigits a c (ds ++ rest)
      = (ds.foldl (fun x y => x * 10 + digitVal y) a, c + ds.length, rest) := by
  induction ds generalizing a c with
  | nil =>
    cases rest with
    | nil => simp [parseFracDigits]
    | cons x tl => simp [parseFracDigits, hrest x tl rfl]
  | cons d ds ih =>
    have hd : isDigit d = true := hds d (by simp)
    have hi := ih (a * 10 + digitVal d) (c + 1) (fun x hx => hds x (by simp [hx]))
    have e : c + 1 + ds.length = c + (ds.length + 1) := by omega
    simp only [List.cons_append, parseFracDigits, hd, if_true, List.foldl_cons, List.length_cons]
    rw [show ds.append rest = ds ++ rest from rfl, hi, e]

/-- The fixed-width digits of a number: digits only, as many as asked for,
denoting the number modulo the power of ten. -/
theorem fixedDigits_spec (k x : Nat) :
    (∀ c ∈ fixedDigits k x, isDigit c = true) ∧ (fixedDigits k x).length = k ∧
      (fixedDigits k x).foldl (fun a c => a * 10 + digitVal c) 0 = x % 10 ^ k := by
  induction k generalizing x with
  | zero => simp [fixedDigits, Nat.mod_one]
  | succ k ih =>
    obtain ⟨h1, h2, h3⟩ := ih (x / 10)
    have hr : x % 10 < 10 := Nat.mod_lt _ (by decide)
    refine ⟨?_, ?_, ?_⟩
    · intro c hc
      simp only [fixedDigits, List.mem_append, List.mem_singleton] at hc
      rcases hc with hc | hc
      · exact h1 c hc
      · subst hc
        exact digitChar_isDigit _ hr
    · simp [fixedDigits, h2]
    · simp only [fixedDigits, List.foldl_append, h3, List.foldl_cons, List.foldl_nil,
        digitChar_val _ hr]
      rw [pow_succ, Nat.mul_comm (10 ^ k) 10, Nat.mod_mul]
      omega

theorem stripZeros_of_last (k m : Nat) (h : m % 10 ≠ 0) : stripZeros (k + 1) m = (m, k + 1) := by
  simp [stripZeros, h]

theorem mkNumber_dec (d : Decimal) :
    mkNumber d.neg (d.mant / 10 ^ (d.scale + 1) * 10 ^ (d.scale + 1) + d.mant % 10 ^ (d.scale + 1))
      (0 - ((d.scale + 1 : Nat) : Int)) = .dec d := by
  obtain ⟨neg, m, s, h⟩ := d
  have hm0 : m ≠ 0 := by
    intro h0; subst h0; simp at h
  have hneg : ¬ (0 : Int) ≤ 0 - ((s + 1 : Nat) : Int) := by omega
  have hto : (-(0 - ((s + 1 : Nat) : Int))).toNat = s + 1 := by omega
  have key : ∀ p : Nat × Nat, p = (m, s + 1) →
      (if h1 : p.1 % 10 ≠ 0 ∧ p.2 ≠ 0 then JVal.dec ⟨neg, p.1, p.2 - 1, h1.1⟩
        else JVal.num (signed neg p.1)) = JVal.dec ⟨neg, m, s, h⟩ := by
    intro p hp
    subst hp
    split
    · rfl
    · rename_i hn
      exact absurd ⟨h, Nat.succ_ne_zero s⟩ hn
  simp only [Nat.div_add_mod']
  unfold mkNumber
  rw [if_neg hm0, if_neg hneg]
  exact key _ (by rw [hto]; exact stripZeros_of_last s m h)

theorem parseNumber_decDigits (d : Decimal) (rest : List Char) (h : Delim rest) :
    parseNumber (decDigits d ++ rest) = some (.dec d, rest) := by
  obtain ⟨h1, h2, h3⟩ := fixedDigits_spec (d.scale + 1) (d.mant % 10 ^ (d.scale + 1))
  have hfrac : parseFraction ('.' :: (fixedDigits (d.scale + 1) (d.mant % 10 ^ (d.scale + 1))
      ++ rest)) = some (d.mant % 10 ^ (d.scale + 1), d.scale + 1, rest) := by
    have hfd := parseFracDigits_append _ rest 0 0 h1 h.not_digit
    rw [h3, h2, Nat.mod_mod, Nat.zero_add] at hfd
    cases hds : fixedDigits (d.scale + 1) (d.mant % 10 ^ (d.scale + 1)) with
    | nil => rw [hds] at h2; simp at h2
    | cons x tl =>
      have hx : isDigit x = true := h1 x (by simp [hds])
      rw [hds] at hfd
      simp only [parseFraction, List.cons_append, if_true, hx]
      rw [← hfd]
      rfl
  have hnat : parseNat (natDigits (d.mant / 10 ^ (d.scale + 1)) ++
      '.' :: (fixedDigits (d.scale + 1) (d.mant % 10 ^ (d.scale + 1)) ++ rest))
      = some (d.mant / 10 ^ (d.scale + 1),
          '.' :: (fixedDigits (d.scale + 1) (d.mant % 10 ^ (d.scale + 1)) ++ rest)) :=
    parseNat_natDigits _ _ (by
      intro x tl hx
      injection hx with hx1 _
      subst hx1
      rfl)
  have hmk := mkNumber_dec d
  unfold decDigits
  cases hn : d.neg with
  | true =>
    rw [hn] at hmk
    simp only [if_true, List.cons_append, List.nil_append, List.append_assoc, parseNumber]
    rw [hnat]
    simp only [hfrac, h.no_exponent, decide_True]
    rw [hmk]
  | false =>
    rw [hn] at hmk
    obtain ⟨c, tl, hc, hd⟩ := natDigits_head (d.mant / 10 ^ (d.scale + 1))
    have hne : c ≠ '-' := digit_ne_minus hd
    rw [hc] at hnat ⊢
    simp only [Bool.false_eq_true, if_false, List.cons_append, List.nil_append,
      List.append_assoc, parseNumber, hne]
    rw [List.cons_append] at hnat
    rw [hnat]
    simp only [hfrac, h.no_exponent, decide_False]
    rw [hmk]

theorem decDigits_head (d : Decimal) :
    ∃ c tl, decDigits d = c :: tl ∧ (c = '-' ∨ isDigit c = true) := by
  unfold decDigits
  cases d.neg with
  | true => exact ⟨'-', _, rfl, Or.inl rfl⟩
  | false =>
    obtain ⟨c, tl, hc, hd⟩ := natDigits_head (d.mant / 10 ^ (d.scale + 1))
    exact ⟨c, tl ++ '.' :: fixedDigits (d.scale + 1) (d.mant % 10 ^ (d.scale + 1)),
      by simp [hc], Or.inr hd⟩

theorem intDigits_head (n : Int) :
    ∃ c tl, intDigits n = c :: tl ∧ (c = '-' ∨ isDigit c = true) := by
  unfold intDigits
  split
  · exact ⟨'-', _, rfl, Or.inl rfl⟩
  · obtain ⟨c, tl, hc, hd⟩ := natDigits_head n.natAbs
    exact ⟨c, tl, hc, Or.inr hd⟩

/-- A character a number can start with is none of the characters the parser
dispatches on before it tries a number. -/
theorem numStart_facts (c : Char) (h : c = '-' ∨ isDigit c = true) :
    isWs c = false ∧ c ≠ '[' ∧ c ≠ '{' ∧ c ≠ '"' ∧ c ≠ 'n' ∧ c ≠ 't' ∧ c ≠ 'f'
      ∧ c ≠ ']' ∧ c ≠ '}' := by
  rcases h with h | h
  · subst h; decide
  · refine ⟨?_, ?_, ?_, ?_, ?_, ?_, ?_, ?_, ?_⟩
    · unfold isWs
      simp only [Bool.or_eq_false_iff, decide_eq_false_iff_not]
      refine ⟨⟨⟨?_, ?_⟩, ?_⟩, ?_⟩ <;> (intro h0; subst h0; revert h; decide)
    all_goals (intro h0; subst h0; revert h; decide)

/-- The first character of a serialized value is not whitespace and closes
neither an array nor an object. -/
theorem stringifyVal_head (v : JVal) :
    ∃ c tl, stringifyVal v = c :: tl ∧ isWs c = false ∧ c ≠ ']' ∧ c ≠ '}' := by
  cases v with
  | null => exact ⟨'n', ['u', 'l', 'l'], by simp [stringifyVal], by decide, by decide, by decide⟩
  | bool b =>
    cases b
    · exact ⟨'f', ['a', 'l', 's', 'e'], by simp [stringifyVal], by decide, by decide, by decide⟩
    · exact ⟨'t', ['r', 'u', 'e'], by simp [stringifyVal], by decide, by decide, by decide⟩
  | num n =>
    obtain ⟨c, tl, hc, hd⟩ := intDigits_head n
    have hf := numStart_facts c hd
    exact ⟨c, tl, by simp [stringifyVal, hc], hf.1, hf.2.2.2.2.2.2.2.1, hf.2.2.2.2.2.2.2.2⟩
  | dec d =>
    obtain ⟨c, tl, hc, hd⟩ := decDigits_head d
    have hf := numStart_facts c hd
    exact ⟨c, tl, by simp [stringifyVal, hc], hf.1, hf.2.2.2.2.2.2.2.1, hf.2.2.2.2.2.2.2.2⟩
  | str s =>
    exact ⟨'"', escapeChars s.data ++ ['"'], by simp [stringifyVal, quoteChars],
      by decide, by decide, by decide⟩
  | arr xs => exact ⟨'[', stringifyElems xs, by simp [stringifyVal], by decide, by decide, by decide⟩
  | obj kvs =>
    exact ⟨'{', stringifyMembers kvs, by simp [stringifyVal], by decide, by decide, by decide⟩

theorem stringifyElems_cons (v : JVal) (vs : List JVal) :
    stringifyElems (v :: vs)
      = stringifyVal v ++ (match vs with | [] => [']'] | _ :: _ => ',' :: stringifyElems vs) := by
  cases vs <;> simp [stringifyElems]

theorem stringifyMembers_cons (k : String) (v : JVal) (kvs : List (String × JVal)) :
    stringifyMembers ((k, v) :: kvs)
      = '"' :: (escapeChars k.data ++ '"' :: ':' :: (stringifyVal v ++
          (match kvs with | [] => ['}'] | _ :: _ => ',' :: stringifyMembers kvs))) := by
  cases kvs <;> simp [stringifyMembers, quoteChars]

mutual
theorem parseValue_stringify (v : JVal) (f : Nat) (rest : List Char)
    (hf : (stringifyVal v).length ≤ f) (hr : Delim rest) :
    parseValue f (stringifyVal v ++ rest) = some (v, rest) := by
  cases f with
  | zero =>
    obtain ⟨c, tl, hc, _⟩ := stringifyVal_head v
    rw [hc] at hf
    simp at hf
  | succ f =>
    match v with
    | .null => simp [stringifyVal, parseValue, skipWs, isWs, expect]
    | .bool true => simp [stringifyVal, parseValue, skipWs, isWs, expect]
    | .bool false => simp [stringifyVal, parseValue, skipWs, isWs, expect]
    | .str s =>
      simp only [stringifyVal, quoteChars, List.cons_append, List.append_assoc, parseValue]
      rw [skipWs_cons_of_not_ws _ _ (by decide)]
      simp only [show ('"' : Char) ≠ '[' from by decide, show ('"' : Char) ≠ '{' from by decide,
        if_false, if_true]
      rw [parseString_quote]
      rfl
    | .num n =>
      obtain ⟨c, tl, hc, hd⟩ := intDigits_head n
      obtain ⟨h0, h1, h2, h3, h4, h5, h6, _, _⟩ := numStart_facts c hd
      have hp := parseNumber_intDigits n rest hr
      simp only [stringifyVal]
      rw [hc] at hp ⊢
      simp only [List.cons_append, parseValue] at hp ⊢
      rw [skipWs_cons_of_not_ws _ _ h0]
      simp only [h1, h2, h3, h4, h5, h6, if_false]
      rw [hp]
    | .dec d =>
      obtain ⟨c, tl, hc, hd⟩ := decDigits_head d
      obtain ⟨h0, h1, h2, h3, h4, h5, h6, _, _⟩ := numStart_facts c hd
      have hp := parseNumber_decDigits d rest hr
      simp only [stringifyVal]
      rw [hc] at hp ⊢
      simp only [List.cons_append, parseValue] at hp ⊢
      rw [skipWs_cons_of_not_ws _ _ h0]
      simp only [h1, h2, h3, h4, h5, h6, if_false]
      rw [hp]
    | .arr [] => simp [stringifyVal, stringifyElems, parseValue, skipWs, isWs]
    | .arr (x :: xs) =>
      obtain ⟨c, tl, hc, hws, hb, _⟩ := stringifyVal_head x
      have hrec := parseElems_stringify (x :: xs) f rest (by simp) (by
        simp only [stringifyVal, List.length_cons] at hf
        omega)
      simp only [stringifyVal, List.cons_append, parseValue]
      rw [skipWs_cons_of_not_ws _ _ (by decide)]
      simp only [if_true]
      rw [stringifyElems_cons, hc] at hrec ⊢
      simp only [List.cons_append] at hrec ⊢
      rw [skipWs_cons_of_not_ws _ _ hws]
      simp only [hb, if_false]
      rw [hrec]
      rfl
    | .obj [] => simp [stringifyVal, stringifyMembers, parseValue, skipWs, isWs]
    | .obj ((k, x) :: kvs) =>
      have hrec := parseMembers_stringify ((k, x) :: kvs) f rest (by simp) (by
        simp only [stringifyVal, List.length_cons] at hf
        omega)
      simp only [stringifyVal, List.cons_append, parseValue]
      rw [skipWs_cons_of_not_ws _ _ (by decide)]
      simp only [show ('{' : Char) ≠ '[' from by decide, if_false, if_true]
      rw [stringifyMembers_cons] at hrec ⊢
      simp only [List.cons_append] at hrec ⊢
      rw [skipWs_cons_of_not_ws _ _ (by decide)]
      simp only [show ('"' : Char) ≠ '}' from by decide, if_false]
      rw [hrec]
      rfl
theorem parseElems_stringify (xs : List JVal) (f : Nat) (rest : List Char)
    (hne : xs ≠ []) (hf : (stringifyElems xs).length ≤ f) :
    parseElems f (stringifyElems xs ++ rest) = some (xs, rest) := by
  match xs, hne with
  | x :: xs, _ =>
    rw [stringifyElems_cons] at hf ⊢
    cases f with
    | zero =>
      obtain ⟨c, tl, hc, _⟩ := stringifyVal_head x
      rw [hc] at hf
      simp at hf
    | succ f =>
      match xs with
      | [] =>
        simp only [List.length_append, List.length_cons, List.length_nil] at hf
        simp only [List.append_assoc, parseElems, List.singleton_append, List.nil_append]
        rw [parseValue_stringify x f _ (by omega) (Or.inr ⟨rest, Or.inr (Or.inl rfl)⟩)]
        rfl
      | y :: ys =>
        simp only [List.length_append, List.length_cons] at hf
        simp only [List.append_assoc, parseElems, List.cons_append]
        rw [parseValue_stringify x f _ (by omega) (Or.inr ⟨_, Or.inl rfl⟩)]
        simp only []
        rw [skipWs_cons_of_not_ws _ _ (by decide)]
        simp only [if_true]
        rw [parseElems_stringify (y :: ys) f rest (by simp) (by omega)]
        rfl
theorem parseMembers_stringify (kvs : List (String × JVal)) (f : Nat) (rest : List Char)
    (hne : kvs ≠ []) (hf : (stringifyMembers kvs).length ≤ f) :
    parseMembers f (stringifyMembers kvs ++ rest) = some (kvs, rest) := by
  match kvs, hne with
  | (k, x) :: kvs, _ =>
    rw [stringifyMembers_cons] at hf ⊢
    cases f with
    | zero => simp at hf
    | succ f =>
      match kvs with
      | [] =>
        simp only [List.length_append, List.length_cons, List.length_nil] at hf
        simp only [List.append_assoc, parseMembers, List.cons_append, List.nil_append]
        rw [skipWs_cons_of_not_ws _ _ (by decide)]
        simp only [if_true]
        rw [parseString_quote]
        simp only []
        rw [skipWs_cons_of_not_ws _ _ (by decide)]
        simp only [if_true]
        rw [parseValue_stringify x f _ (by omega) (Or.inr ⟨rest, Or.inr (Or.inr rfl)⟩)]
        rfl
      | kv :: kvs1 =>
        simp only [List.length_append, List.length_cons] at hf
        simp only [List.append_assoc, parseMembers, List.cons_append, List.nil_append]
        rw [skipWs_cons_of_not_ws _ _ (by decide)]
        simp only [if_true]
        rw [parseString_quote]
        simp only []
        rw [skipWs_cons_of_not_ws _ _ (by decide)]
        simp only [if_true]
        rw [parseValue_stringify x f _ (by omega) (Or.inr ⟨_, Or.inl rfl⟩)]
        simp only []
        rw [skipWs_cons_of_not_ws _ _ (by decide)]
        simp only [if_true]
        rw [parseMembers_stringify (kv :: kvs1) f rest (by simp) (by omega)]
        rfl
end

theorem parseText_stringify (v : JVal) : parseText (stringifyVal v) = some v := by
  unfold parseText
  have h := parseValue_stringify v (2 * (stringifyVal v).length + 2) [] (by omega) (Or.inl rfl)
  rw [List.append_nil] at h
  rw [h]
  rfl


/-! ## The fuel of the parser is enough for every text -/

theorem skipWs_length (cs : List Char) : (skipWs cs).length ≤ cs.length := by
  induction cs with
  | nil => simp [skipWs]
  | cons c rest ih =>
    simp only [skipWs]
    split
    · simp only [List.length_cons]; omega
    · simp

theorem skipWs_cons_length {cs rest : List Char} {c : Char} (h : skipWs cs = c :: rest) :
    rest.length < cs.length := by
  have := skipWs_length cs
  rw [h] at this
  simp only [List.length_cons] at this
  omega

theorem parseString_length {cs rest : List Char} {s : String}
    (h : parseString cs = some (s, rest)) : rest.length ≤ cs.length := by
  have key : ∀ f (cs : List Char) (p : List Char × List Char),
      parseStrBody f cs = some p → p.2.length ≤ cs.length := by
    intro f
    induction f with
    | zero => intro cs p h; simp [parseStrBody] at h
    | succ f ih =>
      intro cs p h
      have hmap : ∀ (ch : Char) (tl : List Char), tl.length ≤ cs.length →
          (parseStrBody f tl).map (fun x => (ch :: x.1, x.2)) = some p →
          p.2.length ≤ cs.length := by
        intro ch tl htl hm
        cases hr : parseStrBody f tl with
        | none => simp [hr] at hm
        | some x =>
          simp only [hr, Option.map_some', Option.some.injEq] at hm
          have := ih tl x hr
          rw [← hm]
          simp only
          omega
      unfold parseStrBody at h
      cases cs with
      | nil => simp at h
      | cons c rest =>
        simp only at h
        split at h
        · simp only [Option.some.injEq] at h
          rw [← h]
          simp
        split at h
        · cases rest with
          | nil => simp at h
          | cons e rest1 =>
            simp only at h
            split at h
            · cases hx : parseHex4 rest1 with
              | none => simp [hx] at h
              | some x =>
                obtain ⟨n, rest2⟩ := x
                have h2 : rest2.length ≤ rest1.length := by
                  unfold parseHex4 at hx
                  split at hx
                  · split at hx
                    · simp only [Option.some.injEq, Prod.mk.injEq] at hx
                      rw [← hx.2]
                      simp only [List.length_cons]
                      omega
                    · simp at hx
                  · simp at hx
                simp only [hx] at h
                split at h
                · cases hl : lowSurrogate rest2 with
                  | none =>
                    simp only [hl] at h
                    exact hmap _ rest2 (by simp only [List.length_cons]; omega) h
                  | some y =>
                    obtain ⟨m, rest3⟩ := y
                    have h3 : rest3.length ≤ rest2.length := by
                      unfold lowSurrogate at hl
                      split at hl
                      · split at hl
                        · cases hy : parseHex4 (by assumption) with
                          | none => simp [hy] at hl
                          | some z =>
                            obtain ⟨k, r⟩ := z
                            simp only [hy] at hl
                            split at hl
                            · simp only [Option.some.injEq, Prod.mk.injEq] at hl
                              unfold parseHex4 at hy
                              split at hy
                              · split at hy
                                · simp only [Option.some.injEq, Prod.mk.injEq] at hy
                                  rw [← hl.2, ← hy.2]
                                  simp only [List.length_cons]
                                  omega
                                · simp at hy
                              · simp at hy
                            · simp at hl
                        · simp at hl
                      · simp at hl
                    simp only [hl] at h
                    exact hmap _ rest3 (by simp only [List.length_cons]; omega) h
                split at h
                · exact hmap _ rest2 (by simp only [List.length_cons]; omega) h
                · exact hmap _ rest2 (by simp only [List.length_cons]; omega) h
            · cases hu : unescape e with
              | none => simp [hu] at h
              | some ch =>
                simp only [hu] at h
                exact hmap _ rest1 (by simp only [List.length_cons]; omega) h
        split at h
        · simp at h
        · exact hmap _ rest (by simp only [List.length_cons]; omega) h
  unfold parseString at h
  cases hr : parseStrBody (cs.length + 1) cs with
  | none => simp [hr] at h
  | some p =>
    have := key _ _ _ hr
    simp only [hr, Option.map_some', Option.some.injEq, Prod.mk.injEq] at h
    rw [← h.2]
    exact this

theorem parseDigits_length (acc : Nat) (cs : List Char) :
    (parseDigits acc cs).2.length ≤ cs.length := by
  induction cs generalizing acc with
  | nil => simp [parseDigits]
  | cons c rest ih =>
    simp only [parseDigits]
    split
    · have := ih (acc * 10 + digitVal c)
      simp only [List.length_cons]
      omega
    · simp

theorem parseNat_length {cs rest : List Char} {n : Nat} (h : parseNat cs = some (n, rest)) :
    rest.length ≤ cs.length := by
  unfold parseNat at h
  cases cs with
  | nil => simp at h
  | cons c tl =>
    simp only at h
    split at h
    · simp only [Option.some.injEq, Prod.mk.injEq] at h
      rw [← h.2]
      simp
    · split at h
      · simp only [Option.some.injEq] at h
        have := parseDigits_length (digitVal c) tl
        rw [h] at this
        simp only [List.length_cons]
        simp only at this
        omega
      · simp at h

theorem parseFracDigits_length (acc count : Nat) (cs : List Char) :
    (parseFracDigits acc count cs).2.2.length ≤ cs.length := by
  induction cs generalizing acc count with
  | nil => simp [parseFracDigits]
  | cons c rest ih =>
    simp only [parseFracDigits]
    split
    · have := ih (acc * 10 + digitVal c) (count + 1)
      simp only [List.length_cons]
      omega
    · simp

theorem parseFraction_length {cs rest : List Char} {f k : Nat}
    (h : parseFraction cs = some (f, k, rest)) : rest.length ≤ cs.length := by
  unfold parseFraction at h
  cases cs with
  | nil =>
    simp only [Option.some.injEq, Prod.mk.injEq] at h
    rw [← h.2.2]
  | cons c t =>
    simp only at h
    split at h
    · cases t with
      | nil => simp at h
      | cons d t1 =>
        simp only at h
        split at h
        · simp only [Option.some.injEq] at h
          have := parseFracDigits_length 0 0 (d :: t1)
          rw [h] at this
          simp only [List.length_cons] at this ⊢
          omega
        · simp at h
    · simp only [Option.some.injEq, Prod.mk.injEq] at h
      rw [← h.2.2]

theorem parseDigits1_length {cs rest : List Char} {n : Nat}
    (h : parseDigits1 cs = some (n, rest)) : rest.length ≤ cs.length := by
  unfold parseDigits1 at h
  cases cs with
  | nil => simp at h
  | cons c t =>
    simp only at h
    split at h
    · simp only [Option.some.injEq] at h
      have := parseDigits_length (digitVal c) t
      rw [h] at this
      simp only [List.length_cons]
      simp only at this
      omega
    · simp at h

theorem parseExponent_length {cs rest : List Char} {e : Int}
    (h : parseExponent cs = some (e, rest)) : rest.length ≤ cs.length := by
  have hmap : ∀ (g : Nat → Int) (tl : List Char), tl.length ≤ cs.length →
      (parseDigits1 tl).map (fun p => (g p.1, p.2)) = some (e, rest) →
      rest.length ≤ cs.length := by
    intro g tl htl hm
    cases hp : parseDigits1 tl with
    | none => simp [hp] at hm
    | some p =>
      have := parseDigits1_length hp
      simp only [hp, Option.map_some', Option.some.injEq, Prod.mk.injEq] at hm
      rw [← hm.2]
      omega
  unfold parseExponent at h
  cases cs with
  | nil =>
    simp only [Option.some.injEq, Prod.mk.injEq] at h
    rw [← h.2]
  | cons c t =>
    simp only at h
    split at h
    · cases t with
      | nil => simp at h
      | cons s t1 =>
        simp only at h
        split at h
        · exact hmap (fun n => -(n : Int)) t1 (by simp only [List.length_cons]; omega) h
        · split at h
          · exact hmap (fun n => (n : Int)) t1 (by simp only [List.length_cons]; omega) h
          · exact hmap (fun n => (n : Int)) (s :: t1) (by simp only [List.length_cons]; omega) h
    · simp only [Option.some.injEq, Prod.mk.injEq] at h
      rw [← h.2]

theorem parseNumber_length {cs rest : List Char} {v : JVal}
    (h : parseNumber cs = some (v, rest)) : rest.length ≤ cs.length := by
  unfold parseNumber at h
  cases cs with
  | nil => simp at h
  | cons c tl =>
    simp only at h
    cases hp : parseNat (if c = '-' then tl else c :: tl) with
    | none => simp [hp] at h
    | some p =>
      obtain ⟨n, r1⟩ := p
      have h1 := parseNat_length hp
      have h1' : r1.length ≤ (c :: tl).length := by
        split at h1
        · simp only [List.length_cons]; omega
        · exact h1
      simp only [hp] at h
      cases hf : parseFraction r1 with
      | none => simp [hf] at h
      | some q =>
        obtain ⟨f, k, r2⟩ := q
        have h2 := parseFraction_length hf
        simp only [hf] at h
        cases he : parseExponent r2 with
        | none => simp [he] at h
        | some x =>
          obtain ⟨e, r3⟩ := x
          have h3 := parseExponent_length he
          simp only [he, Option.some.injEq, Prod.mk.injEq] at h
          rw [← h.2]
          omega

theorem expect_length {lit cs rest : List Char} (h : expect lit cs = some rest) :
    rest.length ≤ cs.length := by
  unfold expect at h
  split at h
  · simp only [Option.some.injEq] at h
    rw [← h]
    simp
  · simp at h

/-- No parser returns more input than it was given. -/
theorem parse_length (f : Nat) :
    (∀ cs v rest, parseValue f cs = some (v, rest) → rest.length ≤ cs.length)
      ∧ (∀ cs vs rest, parseElems f cs = some (vs, rest) → rest.length ≤ cs.length)
      ∧ (∀ cs kvs rest, parseMembers f cs = some (kvs, rest) → rest.length ≤ cs.length) := by
  induction f with
  | zero =>
    refine ⟨?_, ?_, ?_⟩ <;> intro cs v rest h
    · simp [parseValue] at h
    · simp [parseElems] at h
    · simp [parseMembers] at h
  | succ f ih =>
    obtain ⟨ihv, ihe, ihm⟩ := ih
    refine ⟨?_, ?_, ?_⟩
    · intro cs v rest h
      simp only [parseValue] at h
      cases hs : skipWs cs with
      | nil => simp [hs] at h
      | cons c tl =>
        have hlen := skipWs_cons_length hs
        simp only [hs] at h
        split at h
        · cases hs2 : skipWs tl with
          | nil => simp [hs2] at h
          | cons d tl1 =>
            have hlen2 := skipWs_cons_length hs2
            simp only [hs2] at h
            split at h
            · simp only [Option.some.injEq, Prod.mk.injEq] at h
              rw [← h.2]
              omega
            · cases hp : parseElems f (d :: tl1) with
              | none => simp [hp] at h
              | some p =>
                have := ihe _ _ _ hp
                simp only [hp, Option.map_some', Option.some.injEq, Prod.mk.injEq] at h
                rw [← h.2]
                simp only [List.length_cons] at this
                omega
        split at h
        · cases hs2 : skipWs tl with
          | nil => simp [hs2] at h
          | cons d tl1 =>
            have hlen2 := skipWs_cons_length hs2
            simp only [hs2] at h
            split at h
            · simp only [Option.some.injEq, Prod.mk.injEq] at h
              rw [← h.2]
              omega
            · cases hp : parseMembers f (d :: tl1) with
              | none => simp [hp] at h
              | some p =>
                have := ihm _ _ _ hp
                simp only [hp, Option.map_some', Option.some.injEq, Prod.mk.injEq] at h
                rw [← h.2]
                simp only [List.length_cons] at this
                omega
        split at h
        · cases hp : parseString tl with
          | none => simp [hp] at h
          | some p =>
            have := parseString_length hp
            simp only [hp, Option.map_some', Option.some.injEq, Prod.mk.injEq] at h
            rw [← h.2]
            omega
        split at h
        · cases hp : expect ['u', 'l', 'l'] tl with
          | none => simp [hp] at h
          | some p =>
            have := expect_length hp
            simp only [hp, Option.map_some', Option.some.injEq, Prod.mk.injEq] at h
            rw [← h.2]
            omega
        split at h
        · cases hp : expect ['r', 'u', 'e'] tl with
          | none => simp [hp] at h
          | some p =>
            have := expect_length hp
            simp only [hp, Option.map_some', Option.some.injEq, Prod.mk.injEq] at h
            rw [← h.2]
            omega
        split at h
        · cases hp : expect ['a', 'l', 's', 'e'] tl with
          | none => simp [hp] at h
          | some p =>
            have := expect_length hp
            simp only [hp, Option.map_some', Option.some.injEq, Prod.mk.injEq] at h
            rw [← h.2]
            omega
        · have := parseNumber_length h
          simp only [List.length_cons] at this
          omega
    · intro cs vs rest h
      simp only [parseElems] at h
      cases hp : parseValue f cs with
      | none => simp [hp] at h
      | some p =>
        obtain ⟨v, r⟩ := p
        have h1 := ihv _ _ _ hp
        simp only [hp] at h
        cases hs : skipWs r with
        | nil => simp [hs] at h
        | cons c r1 =>
          have hlen := skipWs_cons_length hs
          simp only [hs] at h
          split at h
          · cases hq : parseElems f r1 with
            | none => simp [hq] at h
            | some q =>
              have := ihe _ _ _ hq
              simp only [hq, Option.map_some', Option.some.injEq, Prod.mk.injEq] at h
              rw [← h.2]
              omega
          · split at h
            · simp only [Option.some.injEq, Prod.mk.injEq] at h
              rw [← h.2]
              omega
            · simp at h
    · intro cs kvs rest h
      simp only [parseMembers] at h
      cases hs : skipWs cs with
      | nil => simp [hs] at h
      | cons q r0 =>
        have hlen := skipWs_cons_length hs
        simp only [hs] at h
        split at h
        · cases hp : parseString r0 with
          | none => simp [hp] at h
          | some p =>
            obtain ⟨k, r1⟩ := p
            have h1 := parseString_length hp
            simp only [hp] at h
            cases hs1 : skipWs r1 with
            | nil => simp [hs1] at h
            | cons c r2 =>
              have hlen1 := skipWs_cons_length hs1
              simp only [hs1] at h
              split at h
              · cases hv : parseValue f r2 with
                | none => simp [hv] at h
                | some pv =>
                  obtain ⟨v, r3⟩ := pv
                  have h3 := ihv _ _ _ hv
                  simp only [hv] at h
                  cases hs3 : skipWs r3 with
                  | nil => simp [hs3] at h
                  | cons d r4 =>
                    have hlen3 := skipWs_cons_length hs3
                    simp only [hs3] at h
                    split at h
                    · cases hq : parseMembers f r4 with
                      | none => simp [hq] at h
                      | some q1 =>
                        have := ihm _ _ _ hq
                        simp only [hq, Option.map_some', Option.some.injEq, Prod.mk.injEq] at h
                        rw [← h.2]
                        omega
                    · split at h
                      · simp only [Option.some.injEq, Prod.mk.injEq] at h
                        rw [← h.2]
                        omega
                      · simp at h
              · simp at h
        · simp at h

/-- Past twice the length of the input (and a little) more fuel changes nothing. -/
theorem parse_fuel (f : Nat) :
    (∀ cs g, 2 * cs.length + 2 ≤ f → f ≤ g → parseValue g cs = parseValue f cs)
      ∧ (∀ cs g, 2 * cs.length + 3 ≤ f → f ≤ g → parseElems g cs = parseElems f cs)
      ∧ (∀ cs g, 2 * cs.length + 3 ≤ f → f ≤ g → parseMembers g cs = parseMembers f cs) := by
  induction f with
  | zero => exact ⟨fun _ _ h => by omega, fun _ _ h => by omega, fun _ _ h => by omega⟩
  | succ f ih =>
    obtain ⟨ihv, ihe, ihm⟩ := ih
    refine ⟨?_, ?_, ?_⟩
    · intro cs g hf hg
      obtain ⟨g, rfl⟩ : ∃ k, g = k + 1 := ⟨g - 1, by omega⟩
      simp only [parseValue]
      cases hs : skipWs cs with
      | nil => rfl
      | cons c tl =>
        have hlen := skipWs_cons_length hs
        simp only []
        by_cases h1 : c = '['
        · simp only [h1, if_true]
          cases hs2 : skipWs tl with
          | nil => rfl
          | cons d tl1 =>
            have hlen2 := skipWs_cons_length hs2
            simp only []
            by_cases h2 : d = ']'
            · simp only [h2, if_true]
            · simp only [h2, if_false]
              rw [ihe (d :: tl1) g (by simp only [List.length_cons]; omega) (by omega)]
        · simp only [h1, if_false]
          by_cases h3 : c = '{'
          · simp only [h3, if_true]
            cases hs2 : skipWs tl with
            | nil => rfl
            | cons d tl1 =>
              have hlen2 := skipWs_cons_length hs2
              simp only []
              by_cases h2 : d = '}'
              · simp only [h2, if_true]
              · simp only [h2, if_false]
                rw [ihm (d :: tl1) g (by simp only [List.length_cons]; omega) (by omega)]
          · simp only [h3, if_false]
    · intro cs g hf hg
      obtain ⟨g, rfl⟩ : ∃ k, g = k + 1 := ⟨g - 1, by omega⟩
      simp only [parseElems]
      rw [ihv cs g (by omega) (by omega)]
      cases hp : parseValue f cs with
      | none => rfl
      | some p =>
        obtain ⟨v, r⟩ := p
        have h1 := (parse_length f).1 _ _ _ hp
        simp only []
        cases hs : skipWs r with
        | nil => rfl
        | cons c r1 =>
          have hlen := skipWs_cons_length hs
          simp only []
          rw [ihe r1 g (by omega) (by omega)]
    · intro cs g hf hg
      obtain ⟨g, rfl⟩ : ∃ k, g = k + 1 := ⟨g - 1, by omega⟩
      simp only [parseMembers]
      cases hs : skipWs cs with
      | nil => rfl
      | cons q r0 =>
        have hlen := skipWs_cons_length hs
        simp only []
        by_cases hq : q = '"'
        · simp only [hq, if_true]
          cases hp : parseString r0 with
          | none => rfl
          | some p =>
            obtain ⟨k, r1⟩ := p
            have h1 := parseString_length hp
            simp only []
            cases hs1 : skipWs r1 with
            | nil => rfl
            | cons c r2 =>
              have hlen1 := skipWs_cons_length hs1
              simp only []
              by_cases hc : c = ':'
              · simp only [hc, if_true]
                rw [ihv r2 g (by omega) (by omega)]
                cases hv : parseValue f r2 with
                | none => rfl
                | some pv =>
                  obtain ⟨v, r3⟩ := pv
                  have h3 := (parse_length f).1 _ _ _ hv
                  simp only []
                  cases hs3 : skipWs r3 with
                  | nil => rfl
                  | cons d r4 =>
                    have hlen3 := skipWs_cons_length hs3
                    simp only []
                    rw [ihm r4 g (by omega) (by omega)]
              · simp only [hc, if_false]
        · simp only [hq, if_false]

/-- The fuel `parseText` gives the parser is enough for every text: with any
larger fuel the result is the same. -/
theorem parseText_fuel (cs : List Char) (g : Nat) (hg : 2 * cs.length + 2 ≤ g) :
    parseValue g cs = parseValue (2 * cs.length + 2) cs :=
  (parse_fuel (2 * cs.length + 2)).1 cs g (Nat.le_refl _) hg

theorem parseHex4_length {cs rest : List Char} {n : Nat} (h : parseHex4 cs = some (n, rest)) :
    rest.length < cs.length := by
  unfold parseHex4 at h
  split at h
  · split at h
    · simp only [Option.some.injEq, Prod.mk.injEq] at h
      rw [← h.2]
      simp only [List.length_cons]
      omega
    · simp at h
  · simp at h

theorem lowSurrogate_length {cs rest : List Char} {m : Nat}
    (h : lowSurrogate cs = some (m, rest)) : rest.length < cs.length := by
  unfold lowSurrogate at h
  split at h
  · rename_i c e tl
    split at h
    · cases hy : parseHex4 tl with
      | none => simp [hy] at h
      | some z =>
        obtain ⟨k, r⟩ := z
        have := parseHex4_length hy
        simp only [hy] at h
        split at h
        · simp only [Option.some.injEq, Prod.mk.injEq] at h
          rw [← h.2]
          simp only [List.length_cons]
          omega
        · simp at h
    · simp at h
  · simp at h

/-- The fuel `parseString` gives the scanner of a string body is enough: with
any larger fuel the result is the same. -/
theorem parseStrBody_fuel (f : Nat) :
    ∀ cs g, cs.length < f → f ≤ g → parseStrBody g cs = parseStrBody f cs := by
  induction f with
  | zero => intro cs g h; omega
  | succ f ih =>
    intro cs g hf hg
    obtain ⟨g, rfl⟩ : ∃ k, g = k + 1 := ⟨g - 1, by omega⟩
    cases cs with
    | nil => rfl
    | cons c rest =>
      simp only [List.length_cons] at hf
      simp only [parseStrBody]
      by_cases h1 : c = '"'
      · simp only [h1, if_true]
      · simp only [h1, if_false]
        by_cases h2 : c = '\\'
        · simp only [h2, if_true]
          cases rest with
          | nil => rfl
          | cons e rest1 =>
            simp only [List.length_cons] at hf
            simp only []
            by_cases h3 : e = 'u'
            · simp only [h3, if_true]
              cases hx : parseHex4 rest1 with
              | none => rfl
              | some x =>
                obtain ⟨n, rest2⟩ := x
                have hl2 := parseHex4_length hx
                simp only []
                rw [ih rest2 g (by omega) (by omega)]
                cases hl : lowSurrogate rest2 with
                | none => rfl
                | some y =>
                  obtain ⟨m, rest3⟩ := y
                  have hl3 := lowSurrogate_length hl
                  simp only []
                  rw [ih rest3 g (by omega) (by omega)]
            · simp only [h3, if_false]
              rw [ih rest1 g (by omega) (by omega)]
        · simp only [h2, if_false]
          rw [ih rest g (by omega) (by omega)]

/-! ## Running blocks of statements -/

section JsLemmas

variable {σ α β : Type}

@[simp] theorem Js.bind_apply (m : Js σ α) (f : α → Js σ β) (s : σ) :
    (m >>= f) s = Js.seq m f s := rfl

@[simp] theorem Js.pure_apply (a : α) (s : σ) : (pure a : Js σ α) s = (Except.ok a, s) := rfl

@[simp] theorem Js.ret_apply (a : α) (s : σ) : (Js.ret a : Js σ α) s = (Except.ok a, s) := rfl

@[simp] theorem Js.raise_apply (e : JsError) (s : σ) :
    (Js.raise e : Js σ α) s = (Except.error e, s) := rfl

@[simp] theorem Js.update_apply (f : σ → σ) (s : σ) : Js.update f s = (Except.ok (), f s) := rfl

@[simp] theorem Js.read_apply (s : σ) : (Js.read : Js σ σ) s = (Except.ok s, s) := rfl

@[simp] theorem Js.ofExcept_apply (x : Except JsError α) (s : σ) : Js.ofExcept x s = (x, s) := rfl

theorem Js.seq_ok {m : Js σ α} {f : α → Js σ β} {s s1 : σ} {a : α}
    (h : m s = (Except.ok a, s1)) : Js.seq m f s = f a s1 := by
  simp [Js.seq, h]

theorem Js.seq_error {m : Js σ α} {f : α → Js σ β} {s s1 : σ} {e : JsError}
    (h : m s = (Except.error e, s1)) : Js.seq m f s = (Except.error e, s1) := by
  simp [Js.seq, h]

theorem Js.attempt_ok {m : Js σ α} {h : JsError → Js σ α} {s s1 : σ} {a : α}
    (hm : m s = (Except.ok a, s1)) : Js.attempt m h s = (Except.ok a, s1) := by
  simp [Js.attempt, hm]

theorem Js.attempt_error {m : Js σ α} {h : JsError → Js σ α} {s s1 : σ} {e : JsError}
    (hm : m s = (Except.error e, s1)) : Js.attempt m h s = h e s1 := by
  simp [Js.attempt, hm]

end JsLemmas

/-! ## Logout -/

/-- C7. On both pages the logout handler leaves no token in the store (so
`getToken()` is empty and the page shows the anonymous controls) and leaves
the value under the history key, hence what `loadHistory()` returns, as it was. -/
theorem logout_clears_token_keeps_history (p : App.Page) (q : Auth.Page) :
    (App.logoutClick.exec p).storage.getItem "token" = none
      ∧ App.getToken (App.logoutClick.exec p).storage = ""
      ∧ (App.logoutClick.exec p).storage.getItem App.LS_KEY = p.storage.getItem App.LS_KEY
      ∧ (App.loadHistory (App.logoutClick.exec p)).1 = (App.loadHistory p).1
      ∧ (App.logoutClick.exec p).logoutDisplay = "none"
      ∧ (App.logoutClick.exec p).signupDisplay = ""
      ∧ (App.logoutClick.exec p).loginDisplay = ""
      ∧ (Auth.logoutClick.exec q).storage.getItem "token" = none
      ∧ Auth.getToken (Auth.logoutClick.exec q).storage = ""
      ∧ (Auth.logoutClick.exec q).storage.getItem App.LS_KEY = q.storage.getItem App.LS_KEY
      ∧ App.storedHistory (Auth.logoutClick.exec q).storage = App.storedHistory q.storage
      ∧ (Auth.logoutClick.exec q).logoutDisplay = "none"
      ∧ (Auth.logoutClick.exec q).signupDisplay = ""
      ∧ (Auth.logoutClick.exec q).loginDisplay = "" := by
  simp [App.logoutClick, Auth.logoutClick, Js.exec, Js.seq, App.clearToken, Auth.clearToken,
    App.setAuthMessage, Auth.setAuthMessage, App.updateAuthUI, Auth.updateUI, App.getToken,
    Auth.getToken, Storage.getItem, Storage.removeItem, orDefault, App.LS_KEY, App.loadHistory,
    App.storedHistory]

/-! ## The ask request -/

/-- The synchronous part of the ask handler for a non-empty question: the
loading indicator is shown, the result hidden, a placeholder appended, and the
request issued; the storage is not touched. -/
theorem App.askSubmit_start (p : App.Page) (questionValue : String) (now1 now2 : Nat)
    (hq : jsTrim questionValue ≠ "") :
    (App.askSubmit questionValue now1 now2).start p
      = (Except.ok (Started.waiting
          { url := "/ask",
            authorization :=
              if App.getToken p.storage = "" then none
              else some ("Bearer " ++ App.getToken p.storage),
            body := JSON.stringify (.obj [("question", .str (jsTrim questionValue))]) }),
         { p with statusHidden := false, resultHidden := true, statusText := "جاري المعالجة...",
                  historyList := p.historyList ++ [.pending now1] }) := by
  simp [App.askSubmit, hq, Js.seq, App.appendBubble]

/-- A failing outcome ends the `try` block of the ask handler in a throw
before anything is written. -/
theorem App.askTry_fails (p : App.Page) (q : String) (now : Nat) (o : FetchOutcome)
    (hfail : App.askFails o = true) :
    ∃ e, App.askTry q o now p = (Except.error e, p) := by
  cases o with
  | rejected err => exact ⟨err, by simp [App.askTry, App.awaitFetch, Js.seq]⟩
  | response status body =>
    by_cases h401 : status = 401
    · exact ⟨mkError "الرجاء تسجيل الدخول أولاً",
        by simp [App.askTry, App.awaitFetch, Js.seq, h401]⟩
    · by_cases hok : isOk status = true
      · simp only [App.askFails, h401, hok, decide_False, Bool.not_true, Bool.or_self,
          Bool.false_or] at hfail
        cases hp : resJson body with
        | ok v => simp [hp] at hfail
        | error e =>
          exact ⟨e, by simp [App.askTry, App.awaitFetch, Js.seq, h401, hok, hp]⟩
      · exact ⟨mkError ("HTTP " ++ String.mk (natDigits status)),
          by simp [App.askTry, App.awaitFetch, Js.seq, h401, hok]⟩

/-- C3. For a non-empty question and every failing outcome of the request (a
rejected call, a 401, another non-success status, a body that is not JSON),
the storage after the ask operation is the storage before it, so
`loadHistory()` returns the same log: a failure appends nothing. -/
theorem ask_failure_keeps_history (p : App.Page) (questionValue : String) (now1 now2 : Nat)
    (o : FetchOutcome) (hq : jsTrim questionValue ≠ "") (hfail : App.askFails o = true) :
    (((App.askSubmit questionValue now1 now2).complete o).exec p).storage = p.storage
      ∧ (App.loadHistory (((App.askSubmit questionValue now1 now2).complete o).exec p)).1
          = (App.loadHistory p).1 := by
  have hs := App.askSubmit_start p questionValue now1 now2 hq
  obtain ⟨e, he⟩ := App.askTry_fails
    { p with statusHidden := false, resultHidden := true, statusText := "جاري المعالجة...",
             historyList := p.historyList ++ [.pending now1] }
    (jsTrim questionValue) now2 o hfail
  have hst : (((App.askSubmit questionValue now1 now2).complete o).exec p).storage
      = p.storage := by
    simp only [Js.exec, Async.complete, hs]
    simp [App.askSubmit, Js.ensuring, Js.attempt, he, App.askCatch, Js.seq]
  exact ⟨hst, by simp [App.loadHistory, hst]⟩

/-- Witness of `ask_failure_keeps_history`: the question "is this a scam?", a 401 response. -/
theorem ask_failure_keeps_history_witness :
    jsTrim "is this a scam?" ≠ "" ∧ App.askFails (.response 401 "") = true
      ∧ (((App.askSubmit "is this a scam?" 1000 2000).complete (.response 401 "")).exec
          (App.Page.fresh Storage.empty)).storage = (App.Page.fresh Storage.empty).storage :=
  ⟨by decide, by decide,
    (ask_failure_keeps_history (App.Page.fresh Storage.empty) "is this a scam?" 1000 2000
      (.response 401 "") (by decide) (by decide)).1⟩

/-! ## The persisted log -/

theorem JSON.parse_stringify (v : JVal) : JSON.parse (JSON.stringify v) = .ok v := by
  simp [JSON.parse, JSON.stringify, parseText_stringify]

theorem JSON.stringify_ne_empty (v : JVal) : JSON.stringify v ≠ "" := by
  obtain ⟨c, tl, hc, _⟩ := stringifyVal_head v
  intro h
  have h1 : (JSON.stringify v).data = ("" : String).data := by rw [h]
  simp [JSON.stringify, hc] at h1

/-- What `saveHistory` writes is what `loadHistory` reads back. -/
theorem App.storedHistory_setItem (s : Storage) (v : JVal) :
    App.storedHistory (s.setItem App.LS_KEY (JSON.stringify v)) = v := by
  simp [App.storedHistory, Storage.setItem, Storage.getItem, orDefault,
    JSON.stringify_ne_empty, JSON.parse_stringify]

/-- An absent log reads as the empty sequence. -/
theorem App.storedHistory_absent (s : Storage) (h : s.getItem App.LS_KEY = none) :
    App.storedHistory s = .arr [] := by
  simp only [App.storedHistory, h, orDefault]
  rfl

/-- Rendering one item appends bubbles, none of them a placeholder, to the
history display and touches nothing else; whether it throws does not depend
on the page. -/
theorem App.renderItem_spec (it : JVal) :
    ∃ (bs : List App.Bubble) (r : Except JsError Unit),
      (∀ b ∈ bs, b.isPending = false) ∧
      ∀ s : App.Page, App.renderItem it s = (r, { s with historyList := s.historyList ++ bs }) := by
  unfold App.renderItem
  cases h1 : getProp it "q" with
  | error e => exact ⟨[], .error e, by simp, fun s => by simp [Js.seq]⟩
  | ok q =>
  cases h2 : domText q with
  | error e => exact ⟨[], .error e, by simp, fun s => by simp [Js.seq, h2]⟩
  | ok qText =>
  cases h3 : getProp it "category" with
  | error e =>
    exact ⟨[.question qText], .error e, by simp [App.Bubble.isPending],
      fun s => by simp [Js.seq, h2, App.appendBubble]⟩
  | ok cat =>
  cases h4 : App.categoryLabel cat with
  | error e =>
    exact ⟨[.question qText], .error e, by simp [App.Bubble.isPending],
      fun s => by simp [Js.seq, h2, h4, App.appendBubble]⟩
  | ok label =>
  cases h5 : label.text with
  | error e =>
    exact ⟨[.question qText], .error e, by simp [App.Bubble.isPending],
      fun s => by simp [Js.seq, h2, h4, h5, App.appendBubble]⟩
  | ok labelText =>
  cases h6 : getProp it "advice" with
  | error e =>
    exact ⟨[.question qText], .error e, by simp [App.Bubble.isPending],
      fun s => by simp [Js.seq, h2, h4, h5, App.appendBubble]⟩
  | ok advice =>
  cases h7 : toStrU advice with
  | error e =>
    exact ⟨[.question qText], .error e, by simp [App.Bubble.isPending],
      fun s => by simp [Js.seq, h2, h4, h5, h7, App.appendBubble]⟩
  | ok adviceText =>
    exact ⟨[.question qText, .answer
        ("<div class=\"pill\" style=\"margin-bottom:6px;\">" ++ labelText ++ "</div>"
          ++ adviceText)], .ok (),
      by simp [App.Bubble.isPending],
      fun s => by simp [Js.seq, h2, h4, h5, h7, App.appendBubble]⟩

/-- Rendering a list of items: as for one item. -/
theorem App.renderItems_spec (xs : List JVal) :
    ∃ (bs : List App.Bubble) (r : Except JsError Unit),
      (∀ b ∈ bs, b.isPending = false) ∧
      ∀ s : App.Page, App.renderItems xs s = (r, { s with historyList := s.historyList ++ bs }) := by
  induction xs with
  | nil => exact ⟨[], .ok (), by simp, fun s => by simp [App.renderItems]⟩
  | cons it rest ih =>
    obtain ⟨bs1, r1, hb1, h1⟩ := App.renderItem_spec it
    obtain ⟨bs2, r2, hb2, h2⟩ := ih
    cases r1 with
    | error e =>
      exact ⟨bs1, .error e, hb1, fun s => by simp [App.renderItems, Js.seq, h1]⟩
    | ok u =>
      refine ⟨bs1 ++ bs2, r2, ?_, fun s => by simp [App.renderItems, Js.seq, h1, h2]⟩
      intro b hb
      rcases List.mem_append.1 hb with hb | hb
      · exact hb1 b hb
      · exact hb2 b hb

/-- Whether rendering throws does not depend on the page. -/
theorem App.renderItems_result (xs : List JVal) (s t : App.Page) :
    (App.renderItems xs s).1 = (App.renderItems xs t).1 := by
  obtain ⟨bs, r, _, h⟩ := App.renderItems_spec xs
  rw [h s, h t]

theorem App.renderItems_append (xs ys : List JVal) (s : App.Page) :
    App.renderItems (xs ++ ys) s = Js.seq (App.renderItems xs) (fun _ => App.renderItems ys) s := by
  induction xs generalizing s with
  | nil => simp [App.renderItems, Js.seq]
  | cons it rest ih =>
    simp only [List.cons_append, App.renderItems, Js.seq]
    cases h : App.renderItem it s with
    | mk r s1 =>
      cases r with
      | error e => rfl
      | ok u => simpa [Js.seq] using ih s1

/-- Rendering succeeds on a list when it succeeds on its two parts. -/
theorem App.renderItems_append_ok (xs ys : List JVal) (s t u : App.Page)
    (hx : (App.renderItems xs s).1 = .ok ()) (hy : (App.renderItems ys t).1 = .ok ()) :
    (App.renderItems (xs ++ ys) u).1 = .ok () := by
  rw [App.renderItems_append]
  have hx1 := (App.renderItems_result xs u s).trans hx
  cases h : App.renderItems xs u with
  | mk r s1 =>
    rw [h] at hx1
    simp only at hx1
    subst hx1
    simp only [Js.seq, h]
    exact (App.renderItems_result ys s1 t).trans hy

/-- What `renderHistory` does: the history section is shown and the display is
rebuilt from the persisted log, with no placeholder in it; nothing else
changes. Over a log that is an array it throws exactly when an item does. -/
theorem App.renderHistory_spec (s : App.Page) :
    ∃ (bs : List App.Bubble) (r : Except JsError Unit),
      (∀ b ∈ bs, b.isPending = false) ∧
      App.renderHistory s = (r, { s with historySectionHidden := false, historyList := bs }) ∧
      ∀ xs, App.storedHistory s.storage = .arr xs → r = (App.renderItems xs s).1 := by
  unfold App.renderHistory
  cases hf : App.forOf (App.storedHistory s.storage) with
  | error e =>
    refine ⟨[], .error e, by simp, by simp [Js.seq, App.loadHistory, hf], ?_⟩
    intro xs hxs
    rw [hxs] at hf
    simp [App.forOf] at hf
  | ok ys =>
    obtain ⟨bs, r, hb, h⟩ := App.renderItems_spec ys
    refine ⟨bs, r, hb, by simp [Js.seq, App.loadHistory, hf, h], ?_⟩
    intro xs hxs
    rw [hxs] at hf
    simp only [App.forOf, Except.ok.injEq] at hf
    subst hf
    rw [h s]

/-- What `addEntry` does over a log that is an array: the log with the new
entry at its end is persisted, then the display is rebuilt; it throws exactly
when rendering the new log does. -/
theorem App.addEntry_spec (p : App.Page) (qText : String) (category advice : Option JVal)
    (now : Nat) (xs : List JVal) (hxs : App.storedHistory p.storage = .arr xs) :
    ∃ (bs : List App.Bubble),
      (∀ b ∈ bs, b.isPending = false) ∧
      App.addEntry qText category advice now p
        = ((App.renderItems (xs ++ [App.mkEntry qText category advice now]) p).1,
           { p with
               storage := (p.storage.setItem App.LS_KEY
                 (JSON.stringify (.arr (xs ++ [App.mkEntry qText category advice now])))),
               historySectionHidden := false, historyList := bs }) := by
  obtain ⟨bs, r, hb, h, hr⟩ := App.renderHistory_spec
    ({ p with
        storage := (p.storage.setItem App.LS_KEY
          (JSON.stringify (.arr (xs ++ [App.mkEntry qText category advice now])))) } : App.Page)
  refine ⟨bs, hb, ?_⟩
  have hr1 := hr _ (App.storedHistory_setItem _ _)
  rw [App.renderItems_result _ _ p] at hr1
  subst hr1
  simp [App.addEntry, Js.seq, App.loadHistory, hxs, App.push, App.saveHistory, h]

/-- The persisted log after a sequence of `addEntry` calls over a log that is
an array: the entries of the calls follow the old ones, in call order. -/
theorem App.addEntries_stored (calls : List App.Call) (p : App.Page) (xs : List JVal)
    (hxs : App.storedHistory p.storage = .arr xs) :
    App.storedHistory (App.addEntries calls p).storage
      = .arr (xs ++ calls.map App.Call.entry) := by
  induction calls generalizing p xs with
  | nil => simpa [App.addEntries] using hxs
  | cons c rest ih =>
    obtain ⟨bs, _, h⟩ := App.addEntry_spec p c.question c.category c.advice c.now xs hxs
    have hstep : App.storedHistory
        ((App.addEntry c.question c.category c.advice c.now).exec p).storage
        = .arr (xs ++ [c.entry]) := by
      simp only [Js.exec, h, App.Call.entry]
      exact App.storedHistory_setItem _ _
    have := ih ((App.addEntry c.question c.category c.advice c.now).exec p) (xs ++ [c.entry]) hstep
    simpa [App.addEntries] using this

/-- The entry of a call carries the call's question, category and advice. -/
theorem App.entry_fields (c : App.Call) :
    getProp c.entry "q" = .ok (some (.str c.question))
      ∧ getProp c.entry "category" = .ok c.category
      ∧ getProp c.entry "advice" = .ok c.advice := by
  cases c with
  | mk q cat adv now =>
    cases cat <;> cases adv <;>
      simp [App.Call.entry, App.mkEntry, App.member, getProp, lookupLast]

/-- C1. Starting from an absent history log, after any sequence of `addEntry`
calls `loadHistory()` returns the sequence of the calls' entries, one per call
and in call order, each carrying the question, category and advice of its
call; and a second `loadHistory()` right after the first returns the same. -/
theorem addEntry_sequence_persisted (p : App.Page) (calls : List App.Call)
    (habsent : p.storage.getItem App.LS_KEY = none) :
    App.loadHistory (App.addEntries calls p)
        = (.ok (.arr (calls.map App.Call.entry)), App.addEntries calls p)
      ∧ (calls.map App.Call.entry).length = calls.length
      ∧ (∀ i : Nat, (calls.map App.Call.entry)[i]? = (calls[i]?).map App.Call.entry)
      ∧ (∀ c : App.Call, getProp c.entry "q" = .ok (some (.str c.question))
          ∧ getProp c.entry "category" = .ok c.category
          ∧ getProp c.entry "advice" = .ok c.advice)
      ∧ App.loadHistory (App.loadHistory (App.addEntries calls p)).2
          = App.loadHistory (App.addEntries calls p) := by
  have h := App.addEntries_stored calls p [] (App.storedHistory_absent _ habsent)
  rw [List.nil_append] at h
  refine ⟨by simp [App.loadHistory, h], by simp, fun i => by simp, App.entry_fields, ?_⟩
  simp [App.loadHistory]

/-- Witness of `addEntry_sequence_persisted`: two calls on a fresh profile. -/
theorem addEntry_sequence_persisted_witness :
    (App.Page.fresh Storage.empty).storage.getItem App.LS_KEY = none
      ∧ (App.loadHistory (App.addEntries
          [⟨"is this a scam email?", some (.str "phishing"), some (.str "do not click"), 1000⟩,
           ⟨"how long a password?", some (.str "passwords"), some (.str "long"), 2000⟩]
          (App.Page.fresh Storage.empty))).1
        = .ok (.arr
          [App.mkEntry "is this a scam email?" (some (.str "phishing")) (some (.str "do not click"))
             1000,
           App.mkEntry "how long a password?" (some (.str "passwords")) (some (.str "long")) 2000]) :=
  ⟨rfl, congrArg Prod.fst (addEntry_sequence_persisted (App.Page.fresh Storage.empty)
      [⟨"is this a scam email?", some (.str "phishing"), some (.str "do not click"), 1000⟩,
       ⟨"how long a password?", some (.str "passwords"), some (.str "long"), 2000⟩] rfl).1⟩

/-- The label of a category that is a string has a text, in a template literal
and in a `textContent` assignment. -/
theorem App.categoryLabel_str (c : String) :
    ∃ (l : App.Label) (t u : String),
      App.categoryLabel (some (.str c)) = .ok l ∧ l.text = .ok t ∧ l.domText = .ok u := by
  unfold App.categoryLabel
  simp only [toStrU, toStr]
  cases h : App.categoryMap.lookup c with
  | some label => exact ⟨_, label, label, rfl, rfl, rfl⟩
  | none =>
    cases h2 : App.inheritedFunctions.lookup c with
    | some name => exact ⟨_, _, _, rfl, rfl, rfl⟩
    | none =>
      by_cases h3 : c = "__proto__"
      · exact ⟨.proto, _, _, by simp [h3], rfl, rfl⟩
      · exact ⟨.value (some (.str c)), c, c, by simp [h3], rfl, rfl⟩

/-- An entry whose category and advice are strings renders without error. -/
theorem App.renderItem_entry_ok (q c a : String) (now : Nat) (s : App.Page) :
    (App.renderItems [App.mkEntry q (some (.str c)) (some (.str a)) now] s).1 = .ok () := by
  obtain ⟨l, t, u, hl, ht, _⟩ := App.categoryLabel_str c
  simp [App.renderItems, App.renderItem, Js.seq, App.mkEntry, App.member, getProp, lookupLast,
    domText, toStr, toStrU, hl, ht, App.appendBubble]

/-- The success path of the ask handler over a persisted log that is a
sequence of items the page can render. For a non-empty question and a 2xx
response whose body carries the strings `c` and `a` as category and advice:
the persisted log afterwards is the log before with one entry appended, made
of the trimmed question, `c`, `a` and the time; the result is shown with the
label `categoryLabel(c)` and the text `a`; no placeholder is left in the
history display; and the loading indicator is hidden. -/
theorem App.ask_success_on_rendered_log (p : App.Page) (questionValue : String)
    (now1 now2 status : Nat)
    (body : String) (kvs : List (String × JVal)) (c a : String) (items : List JVal)
    (hq : jsTrim questionValue ≠ "") (hok : isOk status = true)
    (hbody : resJson body = .ok (.obj kvs))
    (hc : lookupLast kvs "category" = some (.str c))
    (ha : lookupLast kvs "advice" = some (.str a))
    (hlog : App.storedHistory p.storage = .arr items)
    (hrender : (App.renderItems items p).1 = .ok ()) :
    App.storedHistory
        (((App.askSubmit questionValue now1 now2).complete (.response status body)).exec p).storage
        = .arr (items ++
            [.obj [("q", .str (jsTrim questionValue)), ("category", .str c), ("advice", .str a),
              ("ts", .num now2)]])
      ∧ (∃ l : App.Label, App.categoryLabel (some (.str c)) = .ok l ∧ l.domText = .ok
          (((App.askSubmit questionValue now1 now2).complete (.response status body)).exec p).pillText)
      ∧ (((App.askSubmit questionValue now1 now2).complete (.response status body)).exec p).adviceText
          = a
      ∧ (((App.askSubmit questionValue now1 now2).complete (.response status body)).exec p).resultHidden
          = false
      ∧ (∀ b ∈ (((App.askSubmit questionValue now1 now2).complete
            (.response status body)).exec p).historyList, b.isPending = false)
      ∧ (((App.askSubmit questionValue now1 now2).complete (.response status body)).exec p).statusHidden
          = true := by
  have hs := App.askSubmit_start p questionValue now1 now2 hq
  obtain ⟨l, t, u, hl, _, hu⟩ := App.categoryLabel_str c
  have h401 : status ≠ 401 := by
    intro h
    subst h
    revert hok
    decide
  -- the state in which `addEntry` runs
  let p3 : App.Page :=
    { p with statusHidden := false, resultHidden := false, statusText := "جاري المعالجة...",
             pillText := u, adviceText := a,
             historyList := App.removeFirstPending (p.historyList ++ [.pending now1]) }
  have hlog3 : App.storedHistory p3.storage = .arr items := hlog
  obtain ⟨bs, hbs, hadd⟩ := App.addEntry_spec p3 (jsTrim questionValue) (some (.str c))
    (some (.str a)) now2 items hlog3
  have hr : (App.renderItems
      (items ++ [App.mkEntry (jsTrim questionValue) (some (.str c)) (some (.str a)) now2]) p3).1
      = .ok () :=
    App.renderItems_append_ok _ _ p p3 p3 hrender (App.renderItem_entry_ok _ _ _ _ _)
  rw [hr] at hadd
  have htry : App.askTry (jsTrim questionValue) (.response status body) now2
      { p with statusHidden := false, resultHidden := true, statusText := "جاري المعالجة...",
               historyList := p.historyList ++ [.pending now1] }
      = (.ok (),
         { p3 with
             storage := (p3.storage.setItem App.LS_KEY (JSON.stringify (.arr (items ++
               [App.mkEntry (jsTrim questionValue) (some (.str c)) (some (.str a)) now2])))),
             historySectionHidden := false, historyList := bs }) := by
    rw [← hadd]
    simp [App.askTry, App.awaitFetch, Js.seq, h401, hok, hbody, getProp, hc, ha, hl, hu, domText,
      toStr, p3]
  have hfinal : ((App.askSubmit questionValue now1 now2).complete (.response status body)).exec p
      = { p3 with
            storage := (p3.storage.setItem App.LS_KEY (JSON.stringify (.arr (items ++
              [App.mkEntry (jsTrim questionValue) (some (.str c)) (some (.str a)) now2])))),
            historySectionHidden := false, historyList := bs, statusHidden := true } := by
    simp only [Js.exec, Async.complete, hs]
    simp [App.askSubmit, Js.ensuring, Js.attempt, htry]
  rw [hfinal]
  refine ⟨App.storedHistory_setItem _ _, ⟨l, hl, hu⟩, rfl, rfl, hbs, rfl⟩

/-! ## Corrupt persisted history -/

set_option maxRecDepth 8000 in
/-- C5 (the code at the failing input). With the text `null` under the history
key, a 200 answer to a non-empty question is displayed and the placeholder
removed, but `addEntry` then throws on `items.push`: the persisted value is
still `null`, no entry is appended, and the message of the `TypeError` replaces
the advice in the result display. Over an absent log the same request appends
the entry with the question, category and advice and shows the advice. -/
theorem ask_success_on_corrupt_log_appends_nothing :
    jsTrim " is this a scam email? " = "is this a scam email?" ∧ isOk 200 = true
      ∧ resJson "\x7b\"category\":\"phishing\",\"advice\":\"Do not click the link.\"\x7d"
          = .ok (.obj [("category", .str "phishing"), ("advice", .str "Do not click the link.")])
      ∧ (((App.askSubmit " is this a scam email? " 1000 2000).complete (.response 200
            "\x7b\"category\":\"phishing\",\"advice\":\"Do not click the link.\"\x7d")).exec
            (App.Page.fresh (Storage.empty.setItem App.LS_KEY "null"))).storage.getItem App.LS_KEY
          = some "null"
      ∧ (App.loadHistory
          (((App.askSubmit " is this a scam email? " 1000 2000).complete (.response 200
            "\x7b\"category\":\"phishing\",\"advice\":\"Do not click the link.\"\x7d")).exec
            (App.Page.fresh (Storage.empty.setItem App.LS_KEY "null")))).1 = .ok .null
      ∧ (((App.askSubmit " is this a scam email? " 1000 2000).complete (.response 200
            "\x7b\"category\":\"phishing\",\"advice\":\"Do not click the link.\"\x7d")).exec
            (App.Page.fresh (Storage.empty.setItem App.LS_KEY "null"))).adviceText
          = (nullReadError "push").message
      ∧ (((App.askSubmit " is this a scam email? " 1000 2000).complete (.response 200
            "\x7b\"category\":\"phishing\",\"advice\":\"Do not click the link.\"\x7d")).exec
            (App.Page.fresh (Storage.empty.setItem App.LS_KEY "null"))).pillText = "التصيد"
      ∧ (((App.askSubmit " is this a scam email? " 1000 2000).complete (.response 200
            "\x7b\"category\":\"phishing\",\"advice\":\"Do not click the link.\"\x7d")).exec
            (App.Page.fresh (Storage.empty.setItem App.LS_KEY "null"))).historyList = []
      ∧ (App.loadHistory
          (((App.askSubmit " is this a scam email? " 1000 2000).complete (.response 200
            "\x7b\"category\":\"phishing\",\"advice\":\"Do not click the link.\"\x7d")).exec
            (App.Page.fresh Storage.empty))).1
          = .ok (.arr [.obj [("q", .str "is this a scam email?"), ("category", .str "phishing"),
              ("advice", .str "Do not click the link."), ("ts", .num 2000)]])
      ∧ (((App.askSubmit " is this a scam email? " 1000 2000).complete (.response 200
            "\x7b\"category\":\"phishing\",\"advice\":\"Do not click the link.\"\x7d")).exec
            (App.Page.fresh Storage.empty)).adviceText = "Do not click the link." :=
  ⟨by decide, rfl, rfl, rfl, rfl, rfl, rfl, rfl, rfl, rfl⟩



/-- C2 (the code at the failing input). With the text `null` under the history
key, `loadHistory()` returns `null`, not a sequence: `addEntry` then throws on
`items.push` and `renderHistory` on the loop. The same happens with a number
or an object. -/
theorem loadHistory_returns_non_array :
    (App.loadHistory (App.Page.fresh (Storage.empty.setItem App.LS_KEY "null"))).1 = .ok .null
      ∧ (App.addEntry "q" (some (.str "general")) (some (.str "a")) 1000
          (App.Page.fresh (Storage.empty.setItem App.LS_KEY "null"))).1
          = .error (nullReadError "push")
      ∧ (App.renderHistory (App.Page.fresh (Storage.empty.setItem App.LS_KEY "null"))).1
          = .error (notIterableError "items")
      ∧ (App.loadHistory (App.Page.fresh (Storage.empty.setItem App.LS_KEY "7"))).1
          = .ok (.num 7)
      ∧ (App.loadHistory (App.Page.fresh (Storage.empty.setItem App.LS_KEY "\x7b\x7d"))).1
          = .ok (.obj [])
      ∧ (App.addEntry "q" (some (.str "general")) (some (.str "a")) 1000
          (App.Page.fresh (Storage.empty.setItem App.LS_KEY "\x7b\x7d"))).1
          = .error (notFunctionError "items.push") :=
  ⟨rfl, rfl, rfl, rfl, rfl, rfl⟩

/-! ## The placeholder after a failure -/

/-- C4 (the code at the failing input). After an ask that the backend answers
with 401 the loading indicator is hidden and the error is shown, but the
placeholder the handler inserted is still in the history display. -/
theorem ask_failure_leaves_placeholder :
    (((App.askSubmit "is this a scam email?" 1000 2000).complete (.response 401 "")).exec
        (App.Page.fresh (Storage.empty.setItem "token" "t0"))).historyList = [.pending 1000]
      ∧ (((App.askSubmit "is this a scam email?" 1000 2000).complete (.response 401 "")).exec
        (App.Page.fresh (Storage.empty.setItem "token" "t0"))).statusHidden = true
      ∧ (((App.askSubmit "is this a scam email?" 1000 2000).complete (.response 401 "")).exec
        (App.Page.fresh (Storage.empty.setItem "token" "t0"))).adviceText
          = "الرجاء تسجيل الدخول أولاً" :=
  ⟨rfl, rfl, rfl⟩

/-! ## Unparseable response bodies -/

/-- C8 (the code at the failing inputs). With a 200 response whose body is not
JSON, the ask handler and the signup handler of `app.js` display the message of
the parse error, and the signup handler of `auth.js` displays the message of
the `TypeError` raised by reading `access_token` of `null`. -/
theorem malformed_body_shows_raw_error :
    (((App.askSubmit "is this a scam email?" 1000 2000).complete
        (.response 200 "<html>Bad Gateway</html>")).exec
        (App.Page.fresh Storage.empty)).adviceText = syntaxError.message
      ∧ (((App.signupClick "a@b.c" "pw").complete (.response 200 "<html>Bad Gateway</html>")).exec
        (App.Page.fresh Storage.empty)).authStatusText = syntaxError.message
      ∧ (((App.signupClick "a@b.c" "pw").complete (.response 502 "<html>Bad Gateway</html>")).exec
        (App.Page.fresh Storage.empty)).authStatusText = syntaxError.message
      ∧ (((Auth.signupClick "a@b.c" "pw").complete (.response 200 "<html>Bad Gateway</html>")).exec
        (Auth.Page.fresh Storage.empty)).authStatusText = (nullReadError "access_token").message
      ∧ (((Auth.loginClick "a@b.c" "pw").complete (.response 200 "<html>Bad Gateway</html>")).exec
        (Auth.Page.fresh Storage.empty)).authStatusText = (nullReadError "access_token").message :=
  ⟨rfl, rfl, rfl, rfl, rfl⟩

/-! ## Validation errors of the backend -/

/-- C9 (the code at the failing input). For a 422 response whose `detail` is a
sequence of objects, `parseErrorDetail` returns the joined fields and the
handlers of `auth.js` display them, but the handlers of `app.js` display the
string form of the sequence. -/
theorem app_signup_shows_object_text :
    JSON.parse
        "\x7b\"detail\":[\x7b\"msg\":\"Field required\"\x7d,\x7b\"msg\":\"\",\"type\":\"missing\"\x7d]\x7d"
        = .ok (.obj [("detail", .arr [.obj [("msg", .str "Field required")],
            .obj [("msg", .str ""), ("type", .str "missing")]])])
      ∧ Auth.parseErrorDetail (.obj [("detail", .arr [.obj [("msg", .str "Field required")],
            .obj [("msg", .str ""), ("type", .str "missing")]])])
          = some "Field required | missing"
      ∧ (((Auth.signupClick "a@b.c" "pw").complete (.response 422
          "\x7b\"detail\":[\x7b\"msg\":\"Field required\"\x7d,\x7b\"msg\":\"\",\"type\":\"missing\"\x7d]\x7d")).exec
          (Auth.Page.fresh Storage.empty)).authStatusText = "Field required | missing"
      ∧ (((App.signupClick "a@b.c" "pw").complete (.response 422
          "\x7b\"detail\":[\x7b\"msg\":\"Field required\"\x7d,\x7b\"msg\":\"\",\"type\":\"missing\"\x7d]\x7d")).exec
          (App.Page.fresh Storage.empty)).authStatusText = "[object Object],[object Object]"
      ∧ (((App.loginClick "a@b.c" "pw").complete (.response 422
          "\x7b\"detail\":[\x7b\"msg\":\"Field required\"\x7d,\x7b\"msg\":\"\",\"type\":\"missing\"\x7d]\x7d")).exec
          (App.Page.fresh Storage.empty)).authStatusText = "[object Object],[object Object]" :=
  ⟨rfl, rfl, rfl, rfl, rfl⟩

/-! ## Controls during the network call -/

/-- C10 (the code at the failing input). While the request of the login or
signup handler of `app.js` is outstanding, neither button is disabled. -/
theorem app_login_leaves_controls_enabled :
    ((App.loginClick "a@b.c" "pw").request (App.Page.fresh Storage.empty)).isSome = true
      ∧ ((App.loginClick "a@b.c" "pw").pendingState (App.Page.fresh Storage.empty)).loginDisabled
          = false
      ∧ ((App.loginClick "a@b.c" "pw").pendingState (App.Page.fresh Storage.empty)).signupDisabled
          = false
      ∧ ((App.signupClick "a@b.c" "pw").request (App.Page.fresh Storage.empty)).isSome = true
      ∧ ((App.signupClick "a@b.c" "pw").pendingState (App.Page.fresh Storage.empty)).loginDisabled
          = false
      ∧ ((App.signupClick "a@b.c" "pw").pendingState (App.Page.fresh Storage.empty)).signupDisabled
          = false :=
  ⟨rfl, rfl, rfl, rfl, rfl, rfl⟩

/-! ## Signup and login -/

/-- A successful response with a non-empty token string, on the conversation
page: the token is persisted and the page shows the authenticated controls,
whether or not the history then renders. -/
theorem App.authClick_success (url progress fallback okMessage : String) (p : App.Page)
    (emailValue passwordValue : String) (status : Nat) (body : String)
    (kvs : List (String × JVal)) (t : String)
    (he : jsTrim emailValue ≠ "") (hp : jsTrim passwordValue ≠ "") (hok : isOk status = true)
    (hbody : resJson body = .ok (.obj kvs))
    (ht : lookupLast kvs "access_token" = some (.str t)) (hne : t ≠ "") :
    (((App.authClick url progress fallback okMessage emailValue passwordValue).complete
        (.response status body)).exec p).storage.getItem "token" = some t
      ∧ (((App.authClick url progress fallback okMessage emailValue passwordValue).complete
        (.response status body)).exec p).signupDisplay = "none"
      ∧ (((App.authClick url progress fallback okMessage emailValue passwordValue).complete
        (.response status body)).exec p).loginDisplay = "none"
      ∧ (((App.authClick url progress fallback okMessage emailValue passwordValue).complete
        (.response status body)).exec p).logoutDisplay = "" := by
  let s4 : App.Page :=
    { p with storage := p.storage.setItem "token" t,
             authStatusHidden := decide (okMessage = ""), authStatusText := okMessage,
             authStatusColor := "", signupDisplay := "none", loginDisplay := "none",
             logoutDisplay := "", historySectionHidden := false }
  obtain ⟨bs, r, _, hrh, _⟩ := App.renderHistory_spec s4
  have htok : App.getToken (p.storage.setItem "token" t) = t := by
    simp [App.getToken, Storage.setItem, Storage.getItem, orDefault, hne]
  have htry : App.authTry fallback okMessage (.response status body)
      { p with authStatusHidden := decide (progress = ""), authStatusText := progress,
               authStatusColor := "" }
      = (r, { s4 with historySectionHidden := false, historyList := bs }) := by
    rw [← hrh]
    simp [App.authTry, App.awaitFetch, Js.seq, hok, hbody, getProp, ht, App.setToken, toStrU,
      toStr, App.setAuthMessage, App.updateAuthUI, htok, hne, s4]
  have hstart : (App.authClick url progress fallback okMessage emailValue passwordValue).start p
      = (.ok (.waiting
          { url := url, authorization := none,
            body := JSON.stringify
              (.obj [("email", .str (jsTrim emailValue)),
                     ("password", .str (jsTrim passwordValue))]) }),
         { p with authStatusHidden := decide (progress = ""), authStatusText := progress,
                  authStatusColor := "" }) := by
    simp [App.authClick, he, hp, Js.seq, App.setAuthMessage]
  simp only [Js.exec, Async.complete, hstart]
  cases r with
  | ok u =>
    simp [App.authClick, Js.attempt, htry, s4, Storage.setItem, Storage.getItem]
  | error e =>
    simp [App.authClick, Js.attempt, htry, s4, Storage.setItem, Storage.getItem,
      App.setAuthMessage]

/-- The state the handlers of `auth.js` reach from the state in which the
request was issued, on a successful response with a token string. -/
theorem Auth.resume_success (fallback okMessage url : String) (delay : Nat)
    (email password : String) (s : Auth.Page) (status : Nat) (body : String)
    (kvs : List (String × JVal)) (t : String) (hok : isOk status = true)
    (hbody : resJson body = .ok (.obj kvs))
    (ht : lookupLast kvs "access_token" = some (.str t)) (hne : t ≠ "") :
    ((Auth.withDisabled [.signup, .login]
        (Auth.authFn url fallback okMessage delay email password)).resume
        (.response status body) s).2
      = { s with storage := s.storage.setItem "token" t,
                 authStatusHidden := decide (okMessage = ""), authStatusText := okMessage,
                 signupDisplay := "none", loginDisplay := "none", logoutDisplay := "",
                 redirectDelay := some delay, signupDisabled := false, loginDisabled := false } := by
  have htok : Auth.getToken (s.storage.setItem "token" t) = t := by
    simp [Auth.getToken, Storage.setItem, Storage.getItem, orDefault, hne]
  simp [Auth.withDisabled, Auth.authFn, Js.ensuring, Js.attempt, Auth.authTry, Auth.awaitFetch,
    Js.seq, Auth.jsonOrNull, hok, hbody, getProp, ht, Auth.setToken, toStrU, toStr,
    Auth.setAuthMessage, Auth.updateUI, htok, hne, Auth.setAllDisabled, Auth.setDisabled]

/-- The synchronous part of the signup handler of `auth.js` for non-empty
fields: the request is issued with both buttons disabled. -/
theorem Auth.signupClick_start (q : Auth.Page) (emailValue passwordValue : String)
    (he : jsTrim emailValue ≠ "") (hp : jsTrim passwordValue ≠ "") :
    (Auth.signupClick emailValue passwordValue).start q
      = (.ok (.waiting
          { url := "/auth/signup", authorization := none,
            body := JSON.stringify
              (.obj [("email", .str (jsTrim emailValue)),
                     ("password", .str (jsTrim passwordValue))]) }),
         { q with emailBorder := "", passwordBorder := "", authStatusHidden := false,
                  authStatusText := "جاري إنشاء الحساب...",
                  signupDisabled := true, loginDisabled := true }) := by
  simp [Auth.signupClick, he, hp, Js.seq, Auth.setAuthMessage, Auth.withDisabled,
    Auth.setAllDisabled, Auth.setDisabled, Auth.finallyUnlessWaiting, Auth.signupFn, Auth.authFn]

/-- The synchronous part of the login handler of `auth.js` for non-empty
fields: the request is issued with both buttons disabled. -/
theorem Auth.loginClick_start (q : Auth.Page) (emailValue passwordValue : String)
    (he : jsTrim emailValue ≠ "") (hp : jsTrim passwordValue ≠ "") :
    (Auth.loginClick emailValue passwordValue).start q
      = (.ok (.waiting
          { url := "/auth/login", authorization := none,
            body := JSON.stringify
              (.obj [("email", .str (jsTrim emailValue)),
                     ("password", .str (jsTrim passwordValue))]) }),
         { q with authStatusHidden := false, authStatusText := "جاري تسجيل الدخول...",
                  signupDisabled := true, loginDisabled := true }) := by
  simp [Auth.loginClick, he, hp, Js.seq, Auth.setAuthMessage, Auth.withDisabled,
    Auth.setAllDisabled, Auth.setDisabled, Auth.finallyUnlessWaiting, Auth.loginFn, Auth.authFn]

/-- C6 (the claim as stated fails). A 200 response to signup or login whose
`access_token` is the empty string is stored as it is: `getToken()` is empty
afterwards and the page shows the anonymous controls, on both pages. -/
theorem auth_success_empty_token_counterexample :
    jsTrim "a@b.c" ≠ "" ∧ jsTrim "pw" ≠ "" ∧ isOk 200 = true
      ∧ JSON.parse "\x7b\"access_token\":\"\"\x7d" = .ok (.obj [("access_token", .str "")])
      ∧ ¬ App.Authenticated (((App.signupClick "a@b.c" "pw").complete
          (.response 200 "\x7b\"access_token\":\"\"\x7d")).exec (App.Page.fresh Storage.empty))
      ∧ ¬ App.Authenticated (((App.loginClick "a@b.c" "pw").complete
          (.response 200 "\x7b\"access_token\":\"\"\x7d")).exec (App.Page.fresh Storage.empty))
      ∧ ¬ Auth.Authenticated (((Auth.signupClick "a@b.c" "pw").complete
          (.response 200 "\x7b\"access_token\":\"\"\x7d")).exec (Auth.Page.fresh Storage.empty))
      ∧ ¬ Auth.Authenticated (((Auth.loginClick "a@b.c" "pw").complete
          (.response 200 "\x7b\"access_token\":\"\"\x7d")).exec (Auth.Page.fresh Storage.empty))
      ∧ (((Auth.loginClick "a@b.c" "pw").complete
          (.response 200 "\x7b\"access_token\":\"\"\x7d")).exec
          (Auth.Page.fresh Storage.empty)).storage.getItem "token" = some ""
      ∧ (((Auth.loginClick "a@b.c" "pw").complete
          (.response 200 "\x7b\"access_token\":\"\"\x7d")).exec
          (Auth.Page.fresh Storage.empty)).logoutDisplay = "none" :=
  ⟨by decide, by decide, rfl, rfl, fun h => h.1 rfl, fun h => h.1 rfl, fun h => h.1 rfl,
    fun h => h.1 rfl, rfl, rfl⟩

/-- C6 (amended). For non-empty email and password and a successful response
whose body carries a non-empty string `access_token`, each of the four signup
and login handlers persists exactly that token and leaves the page in the
state `Authenticated`. -/
theorem auth_success_persists_token (p : App.Page) (q : Auth.Page)
    (emailValue passwordValue : String) (status : Nat) (body : String)
    (kvs : List (String × JVal)) (t : String)
    (he : jsTrim emailValue ≠ "") (hp : jsTrim passwordValue ≠ "") (hok : isOk status = true)
    (hbody : resJson body = .ok (.obj kvs))
    (ht : lookupLast kvs "access_token" = some (.str t)) (hne : t ≠ "") :
    ((((App.signupClick emailValue passwordValue).complete
          (.response status body)).exec p).storage.getItem "token" = some t
        ∧ App.Authenticated (((App.signupClick emailValue passwordValue).complete
          (.response status body)).exec p))
      ∧ ((((App.loginClick emailValue passwordValue).complete
          (.response status body)).exec p).storage.getItem "token" = some t
        ∧ App.Authenticated (((App.loginClick emailValue passwordValue).complete
          (.response status body)).exec p))
      ∧ ((((Auth.signupClick emailValue passwordValue).complete
          (.response status body)).exec q).storage.getItem "token" = some t
        ∧ Auth.Authenticated (((Auth.signupClick emailValue passwordValue).complete
          (.response status body)).exec q))
      ∧ ((((Auth.loginClick emailValue passwordValue).complete
          (.response status body)).exec q).storage.getItem "token" = some t
        ∧ Auth.Authenticated (((Auth.loginClick emailValue passwordValue).complete
          (.response status body)).exec q)) := by
  have happ : ∀ url progress fallback okMessage,
      (((App.authClick url progress fallback okMessage emailValue passwordValue).complete
          (.response status body)).exec p).storage.getItem "token" = some t
        ∧ App.Authenticated (((App.authClick url progress fallback okMessage emailValue
          passwordValue).complete (.response status body)).exec p) := by
    intro url progress fallback okMessage
    obtain ⟨h1, h2, h3, h4⟩ := App.authClick_success url progress fallback okMessage p emailValue
      passwordValue status body kvs t he hp hok hbody ht hne
    refine ⟨h1, ?_, h2, h3, h4⟩
    simp only [Storage.getItem] at h1
    simp [App.getToken, Storage.getItem, h1, orDefault, hne]
  refine ⟨happ _ _ _ _, happ _ _ _ _, ?_, ?_⟩
  · have hs := Auth.signupClick_start q emailValue passwordValue he hp
    have hr := Auth.resume_success "فشل إنشاء الحساب" "تم إنشاء الحساب وتسجيل الدخول"
      "/auth/signup" 600 (jsTrim emailValue) (jsTrim passwordValue)
      { q with emailBorder := "", passwordBorder := "", authStatusHidden := false,
               authStatusText := "جاري إنشاء الحساب...",
               signupDisabled := true, loginDisabled := true }
      status body kvs t hok hbody ht hne
    have hfin : ((Auth.signupClick emailValue passwordValue).complete
        (.response status body)).exec q
        = { q with emailBorder := "", passwordBorder := "",
                   storage := q.storage.setItem "token" t,
                   authStatusHidden := false, authStatusText := "تم إنشاء الحساب وتسجيل الدخول",
                   signupDisplay := "none", loginDisplay := "none", logoutDisplay := "",
                   redirectDelay := some 600, signupDisabled := false,
                   loginDisabled := false } := by
      simp only [Js.exec, Async.complete, hs]
      exact hr
    rw [hfin]
    simp [Auth.Authenticated, Auth.getToken, Storage.setItem, Storage.getItem, orDefault, hne]
  · have hs := Auth.loginClick_start q emailValue passwordValue he hp
    have hr := Auth.resume_success "بيانات الدخول غير صحيحة" "تم تسجيل الدخول"
      "/auth/login" 400 (jsTrim emailValue) (jsTrim passwordValue)
      { q with authStatusHidden := false, authStatusText := "جاري تسجيل الدخول...",
               signupDisabled := true, loginDisabled := true }
      status body kvs t hok hbody ht hne
    have hfin : ((Auth.loginClick emailValue passwordValue).complete
        (.response status body)).exec q
        = { q with storage := q.storage.setItem "token" t,
                   authStatusHidden := false, authStatusText := "تم تسجيل الدخول",
                   signupDisplay := "none", loginDisplay := "none", logoutDisplay := "",
                   redirectDelay := some 400, signupDisabled := false,
                   loginDisabled := false } := by
      simp only [Js.exec, Async.complete, hs]
      exact hr
    rw [hfin]
    simp [Auth.Authenticated, Auth.getToken, Storage.setItem, Storage.getItem, orDefault, hne]

/-- Witness of `auth_success_persists_token`: fresh pages, a 200 response with
the token `tok-1`. -/
theorem auth_success_persists_token_witness :
    jsTrim " a@b.c " ≠ "" ∧ jsTrim "pw" ≠ "" ∧ isOk 200 = true
      ∧ JSON.parse "\x7b\"access_token\":\"tok-1\",\"token_type\":\"bearer\"\x7d"
          = .ok (.obj [("access_token", .str "tok-1"), ("token_type", .str "bearer")])
      ∧ lookupLast [("access_token", .str "tok-1"), ("token_type", .str "bearer")] "access_token"
          = some (.str "tok-1")
      ∧ "tok-1" ≠ ""
      ∧ (((App.signupClick " a@b.c " "pw").complete (.response 200
            "\x7b\"access_token\":\"tok-1\",\"token_type\":\"bearer\"\x7d")).exec
            (App.Page.fresh Storage.empty)).storage.getItem "token" = some "tok-1"
      ∧ App.Authenticated (((App.signupClick " a@b.c " "pw").complete (.response 200
            "\x7b\"access_token\":\"tok-1\",\"token_type\":\"bearer\"\x7d")).exec
            (App.Page.fresh Storage.empty)) :=
  ⟨by decide, by decide, rfl, rfl, rfl, by decide,
    (auth_success_persists_token (App.Page.fresh Storage.empty) (Auth.Page.fresh Storage.empty)
      " a@b.c " "pw" 200 "\x7b\"access_token\":\"tok-1\",\"token_type\":\"bearer\"\x7d"
      [("access_token", .str "tok-1"), ("token_type", .str "bearer")] "tok-1"
      (by decide) (by decide) rfl rfl rfl (by decide)).1⟩

/-! ## Further facts about the two pages -/

/-- After a failing ask for a non-empty question the page is the page before
with the indicator hidden, the error shown as the result, and the placeholder
still at the end of the history display. -/
theorem App.ask_failure_state (p : App.Page) (questionValue : String) (now1 now2 : Nat)
    (o : FetchOutcome) (hq : jsTrim questionValue ≠ "") (hfail : App.askFails o = true) :
    ∃ e : JsError,
      ((App.askSubmit questionValue now1 now2).complete o).exec p
        = { p with statusHidden := true, resultHidden := false,
                   statusText := "جاري المعالجة...",
                   adviceText := App.messageOr e "حدث خطأ غير متوقع. حاول مجدداً.",
                   historyList := p.historyList ++ [.pending now1] } := by
  have hs := App.askSubmit_start p questionValue now1 now2 hq
  obtain ⟨e, he⟩ := App.askTry_fails
    { p with statusHidden := false, resultHidden := true, statusText := "جاري المعالجة...",
             historyList := p.historyList ++ [.pending now1] }
    (jsTrim questionValue) now2 o hfail
  refine ⟨e, ?_⟩
  simp only [Js.exec, Async.complete, hs]
  simp [App.askSubmit, Js.ensuring, Js.attempt, he, App.askCatch, Js.seq]

/-- The buttons `forEach` has gone through have the value it set; the others
keep theirs. -/
theorem Auth.isDisabled_foldl (v : Bool) (b : Auth.Btn) (btns : List Auth.Btn) (s : Auth.Page) :
    Auth.isDisabled b (btns.foldl (fun s b => Auth.setDisabled v b s) s)
      = if b ∈ btns then v else Auth.isDisabled b s := by
  induction btns generalizing s with
  | nil => simp
  | cons c rest ih =>
    rw [List.foldl_cons, ih]
    by_cases hb : b ∈ rest
    · simp [hb]
    · by_cases hc : b = c
      · subst hc
        cases b <;> simp [hb, Auth.isDisabled, Auth.setDisabled]
      · have hcb : ¬ b = c := hc
        cases b <;> cases c <;> simp [hb, Auth.isDisabled, Auth.setDisabled] at hcb ⊢

/-- When the call wrapped by `withDisabled` settles, every button it disabled
is enabled again, whether the wrapped function returns or throws. -/
theorem Auth.withDisabled_reenables {α : Type} (btns : List Auth.Btn) (fn : Async Auth.Page α)
    (o : FetchOutcome) (s : Auth.Page) (b : Auth.Btn) (hb : b ∈ btns) :
    Auth.isDisabled b ((Auth.withDisabled btns fn).resume o s).2 = false := by
  simp only [Auth.withDisabled, Js.ensuring, Auth.setAllDisabled, Js.update_apply]
  cases h : fn.resume o s with
  | mk r s1 => simp [Auth.isDisabled_foldl, hb]

/-- For non-empty fields the signup and login handlers of `auth.js` issue
their request with both buttons disabled, and both are enabled again when the
call has settled, whatever its outcome. -/
theorem Auth.controls_disabled_until_settled (q : Auth.Page) (emailValue passwordValue : String)
    (o : FetchOutcome) (he : jsTrim emailValue ≠ "") (hp : jsTrim passwordValue ≠ "") :
    (((Auth.signupClick emailValue passwordValue).request q).isSome = true
        ∧ ((Auth.signupClick emailValue passwordValue).pendingState q).signupDisabled = true
        ∧ ((Auth.signupClick emailValue passwordValue).pendingState q).loginDisabled = true
        ∧ (((Auth.signupClick emailValue passwordValue).complete o).exec q).signupDisabled = false
        ∧ (((Auth.signupClick emailValue passwordValue).complete o).exec q).loginDisabled = false)
      ∧ (((Auth.loginClick emailValue passwordValue).request q).isSome = true
        ∧ ((Auth.loginClick emailValue passwordValue).pendingState q).signupDisabled = true
        ∧ ((Auth.loginClick emailValue passwordValue).pendingState q).loginDisabled = true
        ∧ (((Auth.loginClick emailValue passwordValue).complete o).exec q).signupDisabled = false
        ∧ (((Auth.loginClick emailValue passwordValue).complete o).exec q).loginDisabled = false) := by
  have hs := Auth.signupClick_start q emailValue passwordValue he hp
  have hl := Auth.loginClick_start q emailValue passwordValue he hp
  refine ⟨⟨by simp [Async.request, hs], by simp [Async.pendingState, hs],
      by simp [Async.pendingState, hs], ?_, ?_⟩,
    ⟨by simp [Async.request, hl], by simp [Async.pendingState, hl],
      by simp [Async.pendingState, hl], ?_, ?_⟩⟩
  · simp only [Js.exec, Async.complete, hs]
    exact Auth.withDisabled_reenables [.signup, .login] _ o _ .signup (by simp)
  · simp only [Js.exec, Async.complete, hs]
    exact Auth.withDisabled_reenables [.signup, .login] _ o _ .login (by simp)
  · simp only [Js.exec, Async.complete, hl]
    exact Auth.withDisabled_reenables [.signup, .login] _ o _ .signup (by simp)
  · simp only [Js.exec, Async.complete, hl]
    exact Auth.withDisabled_reenables [.signup, .login] _ o _ .login (by simp)

/-- On the authentication page a non-success response whose body is not JSON
is reported with the handler's generic message. -/
theorem Auth.malformed_failure_shows_fallback (url fallback okMessage : String) (delay : Nat)
    (email password : String) (s : Auth.Page) (status : Nat) (body : String) (e : JsError)
    (hok : isOk status = false) (hbody : resJson body = .error e) (hfb : fallback ≠ "") :
    ((Auth.withDisabled [.signup, .login]
        (Auth.authFn url fallback okMessage delay email password)).resume
        (.response status body) s).2.authStatusText = fallback := by
  simp [Auth.withDisabled, Auth.authFn, Js.ensuring, Js.attempt, Auth.authTry, Auth.awaitFetch,
    Js.seq, Auth.jsonOrNull, hok, hbody, Auth.failureDetail, Auth.parseErrorDetail,
    Auth.dataAndDetail, truthy, jsOr, toStrU, toStr, mkError, Auth.messageOr, hfb,
    Auth.setAuthMessage, Auth.setAllDisabled, Auth.setDisabled]

theorem intercalate_go_acc (acc sep : String) (xs : List String) :
    String.intercalate.go acc sep xs = acc ++ String.intercalate.go "" sep xs := by
  induction xs generalizing acc with
  | nil => simp [String.intercalate.go]
  | cons a rest ih =>
    simp only [String.intercalate.go]
    rw [ih (acc ++ sep ++ a), ih ("" ++ sep ++ a)]
    simp [String.append_assoc]

theorem intercalate_cons_cons (sep a b : String) (bs : List String) :
    sep.intercalate (a :: b :: bs) = a ++ sep ++ sep.intercalate (b :: bs) := by
  simp only [String.intercalate, String.intercalate.go]
  rw [intercalate_go_acc (a ++ sep ++ b), intercalate_go_acc b]
  simp [String.append_assoc]

theorem joinElems_str_cons (sep a : String) (y : JVal) (ys : List JVal) :
    joinElems sep (.str a :: y :: ys)
      = match joinElems sep (y :: ys) with
        | .error e => .error e
        | .ok t => .ok (a ++ sep ++ t) := by
  rfl

/-- Joining strings is `String.intercalate`. -/
theorem joinElems_strings (sep : String) (fs : List String) :
    joinElems sep (fs.map JVal.str) = .ok (sep.intercalate fs) := by
  induction fs with
  | nil => simp [joinElems, String.intercalate]
  | cons a rest ih =>
    cases rest with
    | nil => simp [joinElems, toStr, String.intercalate, String.intercalate.go]
    | cons b bs =>
      rw [intercalate_cons_cons]
      simp only [List.map_cons] at ih ⊢
      rw [joinElems_str_cons, ih]

theorem Auth.detailField_of_hasField (d : JVal) (f : String) (h : Auth.HasField d f) :
    Auth.detailField d = .ok (.str f) := by
  obtain ⟨kvs, hd, hf, h1 | ⟨h1 | h1, h2⟩⟩ := h <;> subst hd
  · simp [Auth.detailField, getProp, h1, truthy, hf]
  · simp [Auth.detailField, getProp, h1, h2, truthy, hf]
  · simp [Auth.detailField, getProp, h1, h2, truthy, hf]

theorem Auth.detailFields_of_hasField (ds : List JVal) (fs : List String)
    (h : List.Forall₂ Auth.HasField ds fs) :
    Auth.detailFields ds = .ok (fs.map JVal.str) := by
  induction h with
  | nil => rfl
  | cons hd _ ih => simp [Auth.detailFields, Auth.detailField_of_hasField _ _ hd, ih]

theorem intercalate_ne_empty (sep f : String) (fs : List String) (hf : f ≠ "") :
    sep.intercalate (f :: fs) ≠ "" := by
  have h : sep.intercalate (f :: fs) = f ++ String.intercalate.go "" sep fs := by
    simp only [String.intercalate]
    exact intercalate_go_acc f sep fs
  rw [h]
  intro h0
  have h1 : (f ++ String.intercalate.go "" sep fs).data = ("" : String).data := by rw [h0]
  have h2 : f.data = [] := by
    simp only [String.data_append] at h1
    exact (List.append_eq_nil.1 h1).1
  exact hf (String.ext h2)

/-- The first half of C9, on `auth.js`: for an error body whose `detail` is a
non-empty sequence of objects each with a non-empty `msg` or `type`,
`parseErrorDetail` returns the fields joined by `" | "`, in order. -/
theorem Auth.parseErrorDetail_joins (kvs : List (String × JVal)) (ds : List JVal)
    (fs : List String) (hd : lookupLast kvs "detail" = some (.arr ds))
    (hfs : List.Forall₂ Auth.HasField ds fs) :
    Auth.parseErrorDetail (.obj kvs) = some (" | ".intercalate fs) := by
  simp [Auth.parseErrorDetail, truthy, getProp, hd, Auth.detailFields_of_hasField ds fs hfs,
    joinElems_strings]

/-- The second half of C9, on `auth.js`: that joined string is the message the
signup and login handlers display for the failed request. -/
theorem Auth.validation_detail_shown (url fallback okMessage : String) (delay : Nat)
    (email password : String) (s : Auth.Page) (status : Nat) (body : String)
    (kvs : List (String × JVal)) (ds : List JVal) (fs : List String)
    (hok : isOk status = false) (hbody : resJson body = .ok (.obj kvs))
    (hd : lookupLast kvs "detail" = some (.arr ds))
    (hfs : List.Forall₂ Auth.HasField ds fs) (hne : ds ≠ []) :
    ((Auth.withDisabled [.signup, .login]
        (Auth.authFn url fallback okMessage delay email password)).resume
        (.response status body) s).2.authStatusText = " | ".intercalate fs := by
  have hp := Auth.parseErrorDetail_joins kvs ds fs hd hfs
  have hnz : " | ".intercalate fs ≠ "" := by
    cases hfs with
    | nil => exact absurd rfl hne
    | cons h1 _ =>
      obtain ⟨_, _, hf, _⟩ := h1
      exact intercalate_ne_empty _ _ _ hf
  simp [Auth.withDisabled, Auth.authFn, Js.ensuring, Js.attempt, Auth.authTry, Auth.awaitFetch,
    Js.seq, Auth.jsonOrNull, hok, hbody, Auth.failureDetail, hp, truthy, jsOr, toStrU, toStr,
    mkError, Auth.messageOr, hnz, Auth.setAuthMessage, Auth.setAllDisabled, Auth.setDisabled]
end CyberAdvice
